import Mathlib

/-!
# sara-shield: `HumanReach` (safety_shield/src/human_reach.cc)

A shallow embedding of the human-reachability driver and the properties of its
measurement buffer and of its two analysis entry points.

Conventions of the embedding

* `double` is the field `ℚ` (exact arithmetic); `int` is `ℤ`, and the conversion
  `double → int` is defined only inside the range of a 32-bit `int`.
* `std::vector<T>` is `List T`; `operator[]` past the end has no defined
  behaviour and is reported as such, `.at` past the end throws.
* `std::map<std::string, T>` is an association list with unique keys; only
  lookup, insertion and size are represented, not the iteration order.
* The motion models `reach_lib::ArticulatedPos/Vel/Accel` are an external
  library: their constructors, `update` and capsule getters are parameters
  (`ReachLib`). An `update` returns the model afterwards together with the
  `what()` of the `std::exception` it threw, if any.
* Every invocation of a model `update` is recorded, oldest first, in the `calls`
  component of a `Run`.
-/

namespace safety_shield

/-! ## Geometry primitives (reach_lib) -/

/-- A 3D point `reach_lib::Point(x, y, z)`. -/
structure Point where
  x : ℚ
  y : ℚ
  z : ℚ
  deriving DecidableEq

/-- Componentwise difference, `Point::operator-`. -/
instance : Sub Point := ⟨fun a b => ⟨a.x - b.x, a.y - b.y, a.z - b.z⟩⟩

/-- Scaling by a `double`, `Point::operator*`. -/
instance : HMul Point ℚ Point := ⟨fun a c => ⟨a.x * c, a.y * c, a.z * c⟩⟩

/-- The point `reach_lib::Point(0.0, 0.0, 0.0)`. -/
def Point.zero : Point := ⟨0, 0, 0⟩

/-- A capsule `reach_lib::Capsule`: two end points and a radius. -/
structure Capsule where
  p1 : Point
  p2 : Point
  r : ℚ
  deriving DecidableEq

/-- The pair of joint indices `reach_lib::jointPair`. -/
abbrev jointPair := ℤ × ℤ

/-- The uncertainty triple `reach_lib::System`. -/
structure System where
  measurement_error_pos : ℚ
  measurement_error_vel : ℚ
  delay : ℚ
  deriving DecidableEq

/-! ## Containers -/

/-- A `std::map<std::string, T>`: association list with unique keys. -/
abbrev StdMap (T : Type) := List (String × T)

/-- Lookup `m.at(k)`; `none` stands for the `std::out_of_range` it throws. -/
def StdMap.at {T : Type} : StdMap T → String → Option T
  | [], _ => none
  | (k', v) :: rest, k => if k' = k then some v else StdMap.at rest k

/-- Assignment `m[k] = v`: overwrites the entry of `k` or adds one. -/
def StdMap.assign {T : Type} : StdMap T → String → T → StdMap T
  | [], k, v => [(k, v)]
  | (k', v') :: rest, k, v =>
    if k' = k then (k, v) :: rest else (k', v') :: StdMap.assign rest k v

/-- Lookup `v.at(i)` with an `int` index; `none` stands for the
`std::out_of_range` thrown when the index, read as unsigned, is past the end. -/
def vectorAt {T : Type} (v : List T) (i : ℤ) : Option T :=
  if 0 ≤ i then v[i.toNat]? else none

/-! ## Outcomes of a call -/

/-- How a call ends. -/
inductive Outcome (α : Type) where
  /-- The call returns normally. -/
  | returned (a : α)
  /-- A `std::exception` with this `what()` leaves the call. -/
  | threw (what : String)
  /-- An `assert` fails. -/
  | aborted
  /-- The execution has no defined behaviour. -/
  | undefined
  deriving DecidableEq

/-- Which of the three motion models. -/
inductive ModelKind where
  /-- The position-limit model `human_p_`. -/
  | pos
  /-- The velocity-bound model `human_v_`. -/
  | vel
  /-- The acceleration-bound model `human_a_`. -/
  | accel
  deriving DecidableEq

/-- One invocation `model.update(t_begin, t_end, joint_pos, joint_vel)`. -/
structure UpdateCall where
  model : ModelKind
  t_begin : ℚ
  t_end : ℚ
  joint_pos : List Point
  joint_vel : List Point
  deriving DecidableEq

/-- The external motion-model library, for model types `P`, `V`, `A`. -/
structure ReachLib (P V A : Type) where
  /-- Constructor `ArticulatedPos(system, map, thickness, max_v, length)`. -/
  mkPos : System → StdMap jointPair → List ℚ → List ℚ → List ℚ → P
  /-- Constructor `ArticulatedVel(system, map, thickness, max_v)`. -/
  mkVel : System → StdMap jointPair → StdMap ℚ → List ℚ → V
  /-- Constructor `ArticulatedAccel(system, map, thickness, max_a)`. -/
  mkAccel : System → StdMap jointPair → StdMap ℚ → List ℚ → A
  /-- Member `ArticulatedPos::update(t_a, t_b, p, v)`. -/
  updateP : ℚ → ℚ → List Point → List Point → P → P × Option String
  /-- Member `ArticulatedVel::update(t_a, t_b, p, v)`. -/
  updateV : ℚ → ℚ → List Point → List Point → V → V × Option String
  /-- Member `ArticulatedAccel::update(t_a, t_b, p, v)`. -/
  updateA : ℚ → ℚ → List Point → List Point → A → A × Option String
  /-- Capsules currently held by the position-limit model. -/
  capsulesP : P → List Capsule
  /-- Capsules currently held by the velocity-bound model. -/
  capsulesV : V → List Capsule
  /-- Capsules currently held by the acceleration-bound model. -/
  capsulesA : A → List Capsule

/-- No `update` of the library ever throws. -/
def ReachLib.NoThrow {P V A : Type} (lib : ReachLib P V A) : Prop :=
  (∀ a b p v m, (lib.updateP a b p v m).2 = none) ∧
  (∀ a b p v m, (lib.updateV a b p v m).2 = none) ∧
  (∀ a b p v m, (lib.updateA a b p v m).2 = none)

/-! ## The object -/

/-- The data members of `HumanReach`. -/
structure HumanReach (P V A : Type) where
  n_joints_meas_ : ℤ
  body_link_joints_ : StdMap jointPair
  measurement_error_pos_ : ℚ
  measurement_error_vel_ : ℚ
  delay_ : ℚ
  joint_pos_ : List Point
  joint_vel_ : List Point
  last_meas_timestep_ : ℚ
  has_second_meas_ : Bool
  human_p_ : P
  human_v_ : V
  human_a_ : A

/-- The arguments of the constructor. -/
structure Config where
  n_joints_meas : ℤ
  joint_names : StdMap ℤ
  body_link_joints : StdMap jointPair
  thickness : StdMap ℚ
  max_v : List ℚ
  max_a : List ℚ
  extremity_base_names : List String
  extremity_end_names : List String
  extremity_length : List ℚ
  extremity_thickness : List ℚ
  measurement_error_pos : ℚ
  measurement_error_vel : ℚ
  delay : ℚ

/-- The loop `for (int i = 0; i < n; i++) { v.push_back(Point(0.0, 0.0, 0.0)); }`
of the constructor (lines 38-41) and of `reset` (lines 46-49): nothing happens
for `n ≤ 0`. -/
def pushZeros (n : ℤ) (v : List Point) : List Point :=
  v ++ List.replicate n.toNat Point.zero

/-- The loop of lines 30-34 from index `i`, with `k` iterations left, building
`extremity_body_segment_map` and `extremity_max_v`. -/
def extremityLoop (cfg : Config) :
    Nat → Nat → StdMap jointPair → List ℚ → Outcome (StdMap jointPair × List ℚ)
  | 0, _, segs, maxv => .returned (segs, maxv)
  | k + 1, i, segs, maxv =>
    match cfg.extremity_base_names[i]?, cfg.extremity_end_names[i]? with
    | some base, some end_ =>
      match cfg.joint_names.at base, cfg.joint_names.at end_ with
      | some jb, some je =>
        match vectorAt cfg.max_v jb, vectorAt cfg.max_v je with
        | some vb, some ve =>
          extremityLoop cfg k (i + 1) (segs.assign base (jb, je)) (maxv ++ [max vb ve])
        | _, _ => .threw "vector::_M_range_check"
      | _, _ => .threw "map::at"
    | _, _ => .undefined

/-- The constructor `HumanReach::HumanReach` (lines 5-42), named `new` because
the name of the structure is taken inside its own namespace. The in-class
initialisers of `last_meas_timestep_` and `has_second_meas_` are declared in the
header; they are arguments here, and so is whether the build defines `NDEBUG`
(which turns the `assert` of line 35 off). -/
def HumanReach.new {P V A : Type} (lib : ReachLib P V A) (cfg : Config)
    (last_meas_timestep_init : ℚ) (has_second_meas_init : Bool) (ndebug : Bool) :
    Outcome (HumanReach P V A) :=
  let system : System := ⟨cfg.measurement_error_pos, cfg.measurement_error_vel, cfg.delay⟩
  let human_v_ := lib.mkVel system cfg.body_link_joints cfg.thickness cfg.max_v
  let human_a_ := lib.mkAccel system cfg.body_link_joints cfg.thickness cfg.max_a
  match extremityLoop cfg cfg.extremity_base_names.length 0 [] [] with
  | .returned (extremity_body_segment_map, extremity_max_v) =>
    if ndebug = true ∨ cfg.extremity_base_names.length = cfg.extremity_end_names.length then
      .returned
        { n_joints_meas_ := cfg.n_joints_meas
          body_link_joints_ := cfg.body_link_joints
          measurement_error_pos_ := cfg.measurement_error_pos
          measurement_error_vel_ := cfg.measurement_error_vel
          delay_ := cfg.delay
          joint_pos_ := pushZeros cfg.n_joints_meas []
          joint_vel_ := pushZeros cfg.n_joints_meas []
          last_meas_timestep_ := last_meas_timestep_init
          has_second_meas_ := has_second_meas_init
          human_p_ := lib.mkPos system extremity_body_segment_map cfg.extremity_thickness
            extremity_max_v cfg.extremity_length
          human_v_ := human_v_
          human_a_ := human_a_ }
    else .aborted
  | .threw what => .threw what
  | .aborted => .aborted
  | .undefined => .undefined

/-- The member `HumanReach::reset` (lines 44-50). -/
def HumanReach.reset {P V A : Type} (self : HumanReach P V A) : HumanReach P V A :=
  { self with
    last_meas_timestep_ := -1
    joint_pos_ := pushZeros self.n_joints_meas_ self.joint_pos_
    joint_vel_ := pushZeros self.n_joints_meas_ self.joint_vel_ }

/-- The threshold `1e-7` of line 56. -/
def dtMin : ℚ := 1 / 10000000

/-- The loop of lines 62-65 from index `i`, with `k` iterations left; `none`
when `joint_pos_[i]` or `joint_vel_[i]` is past the end of its vector. -/
def measurementLoop (human_joint_pos joint_pos_ : List Point) (dt : ℚ) :
    Nat → Nat → List Point → Option (List Point)
  | 0, _, joint_vel_ => some joint_vel_
  | k + 1, i, joint_vel_ =>
    match human_joint_pos[i]?, joint_pos_[i]? with
    | some p, some q =>
      if i < joint_vel_.length then
        measurementLoop human_joint_pos joint_pos_ dt k (i + 1)
          (joint_vel_.set i ((p - q) * (1 / dt)))
      else none
    | _, _ => none

/-- The member `HumanReach::measurement` (lines 52-74); `none` when the
execution has no defined behaviour. Nothing inside the `try` block throws. -/
def HumanReach.measurement {P V A : Type} (self : HumanReach P V A)
    (human_joint_pos : List Point) (time : ℚ) : Option (HumanReach P V A) :=
  if self.last_meas_timestep_ ≠ -1 then
    let dt := time - self.last_meas_timestep_
    if dt < dtMin then
      some { self with joint_pos_ := human_joint_pos, last_meas_timestep_ := time }
    else
      match measurementLoop human_joint_pos self.joint_pos_ dt human_joint_pos.length 0
          self.joint_vel_ with
      | some joint_vel_ =>
        some { self with
          joint_vel_ := joint_vel_
          has_second_meas_ := true
          joint_pos_ := human_joint_pos
          last_meas_timestep_ := time }
      | none => none
  else
    some { self with joint_pos_ := human_joint_pos, last_meas_timestep_ := time }

/-! ## The reachability driver -/

/-- What a call leaves behind: the object, the model updates it invoked (oldest
first) and how it ended. -/
structure Run (P V A α : Type) where
  obj : HumanReach P V A
  calls : List UpdateCall
  outcome : Outcome α

/-- The three statements `human_p_.update(t_a, t_b, joint_pos_, joint_vel_);`
`human_v_.update(...); human_a_.update(...);` of lines 81-83 and 102-104, with
no handler around them: the first exception ends the sequence. -/
def HumanReach.updateModels {P V A : Type} (lib : ReachLib P V A) (self : HumanReach P V A)
    (t_a t_b : ℚ) : Run P V A Unit :=
  let cp : UpdateCall := ⟨.pos, t_a, t_b, self.joint_pos_, self.joint_vel_⟩
  let cv : UpdateCall := ⟨.vel, t_a, t_b, self.joint_pos_, self.joint_vel_⟩
  let ca : UpdateCall := ⟨.accel, t_a, t_b, self.joint_pos_, self.joint_vel_⟩
  match lib.updateP t_a t_b self.joint_pos_ self.joint_vel_ self.human_p_ with
  | (p, some what) => ⟨{ self with human_p_ := p }, [cp], .threw what⟩
  | (p, none) =>
    match lib.updateV t_a t_b self.joint_pos_ self.joint_vel_ self.human_v_ with
    | (v, some what) => ⟨{ self with human_p_ := p, human_v_ := v }, [cp, cv], .threw what⟩
    | (v, none) =>
      match lib.updateA t_a t_b self.joint_pos_ self.joint_vel_ self.human_a_ with
      | (a, some what) =>
        ⟨{ self with human_p_ := p, human_v_ := v, human_a_ := a }, [cp, cv, ca], .threw what⟩
      | (a, none) =>
        ⟨{ self with human_p_ := p, human_v_ := v, human_a_ := a }, [cp, cv, ca], .returned ()⟩

/-- The member `HumanReach::humanReachabilityAnalysis` (lines 76-87): the
handler of line 84 swallows the exception of an update. -/
def HumanReach.humanReachabilityAnalysis {P V A : Type} (lib : ReachLib P V A)
    (self : HumanReach P V A) (t_command t_brake : ℚ) : Run P V A Unit :=
  let t_reach := t_command - self.last_meas_timestep_ + t_brake
  let r := self.updateModels lib 0 t_reach
  { r with outcome := .returned () }

/-- Modelled from the spec: `getAllCapsules` is defined in the header, which is
not among the sources. Per the spec (4.4) the snapshot lists the position-limit
model's capsules first, then the velocity-bound model's, then the
acceleration-bound model's. -/
def HumanReach.getAllCapsules {P V A : Type} (lib : ReachLib P V A)
    (self : HumanReach P V A) : List (List Capsule) :=
  [lib.capsulesP self.human_p_, lib.capsulesV self.human_v_, lib.capsulesA self.human_a_]

/-- The conversion `double → int` of an integral value: defined only inside the
range of a 32-bit `int`. -/
def toInt32 (c : ℤ) : Option ℤ :=
  if -2147483648 ≤ c ∧ c ≤ 2147483647 then some c else none

/-- The loop of lines 100-108 with `k` iterations left. -/
def improvedLoop {P V A : Type} (lib : ReachLib P V A) (increment : ℚ) :
    Nat → ℚ → ℚ → HumanReach P V A → List (List (List Capsule)) → List UpdateCall →
      Run P V A (List (List (List Capsule)))
  | 0, _, _, self, list, calls => ⟨self, calls, .returned list⟩
  | k + 1, begin_, end_, self, list, calls =>
    let r := self.updateModels lib begin_ end_
    match r.outcome with
    | .returned _ =>
      improvedLoop lib increment k (begin_ + increment) (end_ + increment) r.obj
        (list ++ [r.obj.getAllCapsules lib]) (calls ++ r.calls)
    | .threw what => ⟨r.obj, calls ++ r.calls, .threw what⟩
    | .aborted => ⟨r.obj, calls ++ r.calls, .aborted⟩
    | .undefined => ⟨r.obj, calls ++ r.calls, .undefined⟩

/-- The member `HumanReach::improvedHumanReachabilityAnalysis` (lines 90-110).
For `sample_time = 0` the quotient of line 96 is infinite or not a number and
its conversion to `int` has no defined behaviour. For `time_steps = 0` the
quotient of line 97 is never used (`x / 0 = 0` here). -/
def HumanReach.improvedHumanReachabilityAnalysis {P V A : Type} (lib : ReachLib P V A)
    (self : HumanReach P V A) (t_command current_motion_time goal_motion_time sample_time : ℚ) :
    Run P V A (List (List (List Capsule))) :=
  let t_reach_human := t_command - self.last_meas_timestep_ + goal_motion_time
  let t_reach_robot := goal_motion_time - current_motion_time
  if sample_time = 0 then ⟨self, [], .undefined⟩
  else
    match toInt32 ⌈t_reach_robot / sample_time⌉ with
    | none => ⟨self, [], .undefined⟩
    | some time_steps =>
      let increment := t_reach_human / time_steps
      improvedLoop lib increment time_steps.toNat 0 increment self [] []

/-! ## Concrete libraries and configurations used to evaluate the code -/

/-- A library whose models remember the interval of their last update and
expose it as one capsule; no update throws. -/
def intervalLib : ReachLib (ℚ × ℚ) (ℚ × ℚ) (ℚ × ℚ) where
  mkPos := fun _ _ _ _ _ => (0, 0)
  mkVel := fun _ _ _ _ => (0, 0)
  mkAccel := fun _ _ _ _ => (0, 0)
  updateP := fun a b _ _ _ => ((a, b), none)
  updateV := fun a b _ _ _ => ((a, b), none)
  updateA := fun a b _ _ _ => ((a, b), none)
  capsulesP := fun m => [⟨⟨m.1, 0, 0⟩, ⟨m.2, 0, 0⟩, 0⟩]
  capsulesV := fun m => [⟨⟨m.1, 0, 0⟩, ⟨m.2, 0, 0⟩, 0⟩]
  capsulesA := fun m => [⟨⟨m.1, 0, 0⟩, ⟨m.2, 0, 0⟩, 0⟩]

/-- The library `intervalLib` with a position-limit model whose update throws
and leaves the model as it was. -/
def faultyPosLib : ReachLib (ℚ × ℚ) (ℚ × ℚ) (ℚ × ℚ) :=
  { intervalLib with updateP := fun _ _ _ _ m => (m, some "ArticulatedPos::update") }

/-- A configuration with `n` measured joints, no body segment and no extremity. -/
def plainConfig (n : ℤ) : Config where
  n_joints_meas := n
  joint_names := []
  body_link_joints := []
  thickness := []
  max_v := []
  max_a := []
  extremity_base_names := []
  extremity_end_names := []
  extremity_length := []
  extremity_thickness := []
  measurement_error_pos := 0
  measurement_error_vel := 0
  delay := 0

/-- The object that `HumanReach(n, ...)` builds from `plainConfig n` with the
library `lib`, the timestamp initialised to `-1`. -/
def plainObject {P V A : Type} (lib : ReachLib P V A) (n : ℤ) : HumanReach P V A where
  n_joints_meas_ := n
  body_link_joints_ := []
  measurement_error_pos_ := 0
  measurement_error_vel_ := 0
  delay_ := 0
  joint_pos_ := List.replicate n.toNat Point.zero
  joint_vel_ := List.replicate n.toNat Point.zero
  last_meas_timestep_ := -1
  has_second_meas_ := false
  human_p_ := lib.mkPos ⟨0, 0, 0⟩ [] [] [] []
  human_v_ := lib.mkVel ⟨0, 0, 0⟩ [] [] []
  human_a_ := lib.mkAccel ⟨0, 0, 0⟩ [] [] []

/-! ## The measurement buffer -/

/-- The buffer is large enough for measurements of `n_joints_meas_` joints. -/
def HumanReach.Sized {P V A : Type} (self : HumanReach P V A) : Prop :=
  self.n_joints_meas_.toNat ≤ self.joint_pos_.length ∧
    self.n_joints_meas_.toNat ≤ self.joint_vel_.length

instance {P V A : Type} (self : HumanReach P V A) : Decidable self.Sized :=
  inferInstanceAs (Decidable (_ ∧ _))

/-- One call on the measurement buffer. -/
inductive BufferCall where
  /-- The call `reset()`. -/
  | reset
  /-- The call `measurement(positions, time)`. -/
  | measurement (positions : List Point) (time : ℚ)

/-- The object after a sequence of buffer calls, `none` when one of them has no
defined behaviour. -/
def HumanReach.afterCalls {P V A : Type} (self : HumanReach P V A) :
    List BufferCall → Option (HumanReach P V A)
  | [] => some self
  | .reset :: rest => self.reset.afterCalls rest
  | .measurement positions time :: rest =>
    match self.measurement positions time with
    | some next => next.afterCalls rest
    | none => none

/-! ## The driver as the spec words it

Definitions that follow the spec (4.3), to be compared with the code above. -/

/-- Spec wording, "invoke all three models' `update(start, end, positions,
velocities)`": the object once each model took its update. -/
def HumanReach.updated {P V A : Type} (lib : ReachLib P V A) (self : HumanReach P V A)
    (t_a t_b : ℚ) : HumanReach P V A :=
  { self with
    human_p_ := (lib.updateP t_a t_b self.joint_pos_ self.joint_vel_ self.human_p_).1
    human_v_ := (lib.updateV t_a t_b self.joint_pos_ self.joint_vel_ self.human_v_).1
    human_a_ := (lib.updateA t_a t_b self.joint_pos_ self.joint_vel_ self.human_a_).1 }

/-- Spec wording: one update of each model, position-limit first, over the
interval `[t_a, t_b]` with the stored positions and velocities. -/
def HumanReach.threeCalls {P V A : Type} (self : HumanReach P V A) (t_a t_b : ℚ) :
    List UpdateCall :=
  [⟨.pos, t_a, t_b, self.joint_pos_, self.joint_vel_⟩,
   ⟨.vel, t_a, t_b, self.joint_pos_, self.joint_vel_⟩,
   ⟨.accel, t_a, t_b, self.joint_pos_, self.joint_vel_⟩]

/-- Spec wording (4.3, step 5), closed form: the object after the slices
`0, ..., k - 1`, slice `i` being the interval `[i * increment, i * increment +
increment]`. -/
def HumanReach.afterSlices {P V A : Type} (lib : ReachLib P V A) (self : HumanReach P V A)
    (increment : ℚ) : Nat → HumanReach P V A
  | 0 => self
  | i + 1 =>
    (self.afterSlices lib increment i).updated lib (i * increment) (i * increment + increment)

/-- The step count `ceil((goal_motion_time - current_motion_time) / sample_time)`. -/
def stepCount (current_motion_time goal_motion_time sample_time : ℚ) : ℤ :=
  ⌈(goal_motion_time - current_motion_time) / sample_time⌉

/-- An object whose last measurement `[(0,0,0)]` was taken at time `t`. -/
def measuredObject {P V A : Type} (lib : ReachLib P V A) (t : ℚ) : HumanReach P V A :=
  { plainObject lib 1 with joint_pos_ := [⟨0, 0, 0⟩], last_meas_timestep_ := t }

/-! ## The extremities as the spec words them

Definitions that follow the spec (3, "Extremity"), to be compared with the
constructor above. -/

/-- Spec wording, "a named derived segment (base joint → end joint)": the joint
pair of extremity `i`, when both of its names are in `joint_names`. -/
def Config.extremityPair (cfg : Config) (i : Nat) : Option jointPair :=
  match cfg.extremity_base_names[i]?, cfg.extremity_end_names[i]? with
  | some base, some end_ =>
    match cfg.joint_names.at base, cfg.joint_names.at end_ with
    | some jb, some je => some (jb, je)
    | _, _ => none
  | _, _ => none

/-- Spec wording, "a maximum speed (the larger of its two endpoint joint speed
limits)": the maximum speed of extremity `i`, when both of its joints have an
entry in `max_v`. -/
def Config.extremitySpeed (cfg : Config) (i : Nat) : Option ℚ :=
  match cfg.extremityPair i with
  | some (jb, je) =>
    match vectorAt cfg.max_v jb, vectorAt cfg.max_v je with
    | some vb, some ve => some (max vb ve)
    | _, _ => none
  | none => none

/-- Every extremity has an end name, both of its names occur in `joint_names`
and their indices are valid in `max_v`. -/
def Config.Resolved (cfg : Config) : Prop :=
  ∀ i, i < cfg.extremity_base_names.length → (cfg.extremitySpeed i).isSome = true

instance (cfg : Config) : Decidable cfg.Resolved :=
  inferInstanceAs (Decidable (∀ i, i < cfg.extremity_base_names.length → _))

/-- A library whose position-limit model keeps the segment map and the speed
list its constructor was handed. -/
def recordingLib : ReachLib (StdMap jointPair × List ℚ) Unit Unit where
  mkPos := fun _ segs _ maxv _ => (segs, maxv)
  mkVel := fun _ _ _ _ => ()
  mkAccel := fun _ _ _ _ => ()
  updateP := fun _ _ _ _ m => (m, none)
  updateV := fun _ _ _ _ m => (m, none)
  updateA := fun _ _ _ _ m => (m, none)
  capsulesP := fun _ => []
  capsulesV := fun _ => []
  capsulesA := fun _ => []

/-- A configuration with three joints `a`, `b`, `c` of speed limits `1`, `2`,
`3` and two extremities with the given base and end names. -/
def armConfig (base0 end0 base1 end1 : String) : Config :=
  { plainConfig 3 with
    joint_names := [("a", 0), ("b", 1), ("c", 2)]
    max_v := [1, 2, 3]
    max_a := [1, 1, 1]
    extremity_base_names := [base0, base1]
    extremity_end_names := [end0, end1]
    extremity_length := [1, 1]
    extremity_thickness := [0, 0] }

theorem Point.sub_def (a b : Point) : a - b = ⟨a.x - b.x, a.y - b.y, a.z - b.z⟩ := rfl

theorem Point.mul_def (a : Point) (c : ℚ) : a * c = ⟨a.x * c, a.y * c, a.z * c⟩ := rfl

theorem plainObject_constructed {P V A : Type} (lib : ReachLib P V A) (n : ℤ) (nd : Bool) :
    HumanReach.new lib (plainConfig n) (-1) false nd = .returned (plainObject lib n) := by
  simp [HumanReach.new, plainConfig, plainObject, extremityLoop, pushZeros]

theorem measurementLoop_spec (hjp jp : List Point) (dt : ℚ) :
    ∀ (k i : Nat) (vel : List Point), i + k = hjp.length → hjp.length ≤ jp.length →
      hjp.length ≤ vel.length →
      ∃ vel', measurementLoop hjp jp dt k i vel = some vel' ∧ vel'.length = vel.length ∧
        (∀ j p q, i ≤ j → hjp[j]? = some p → jp[j]? = some q →
          vel'[j]? = some ((p - q) * (1 / dt))) ∧
        (∀ j, j < i ∨ hjp.length ≤ j → vel'[j]? = vel[j]?) := by
  intro k
  induction k with
  | zero =>
    intro i vel hik _ _
    refine ⟨vel, rfl, rfl, ?_, fun _ _ => rfl⟩
    intro j p q hij hp _
    have hlt : j < hjp.length := by
      by_contra hc
      rw [List.getElem?_eq_none (by omega)] at hp
      cases hp
    omega
  | succ k ih =>
    intro i vel hik hjpl hvl
    have hi : i < hjp.length := by omega
    have hp : hjp[i]? = some hjp[i] := List.getElem?_eq_getElem hi
    have hiq : i < jp.length := by omega
    have hq : jp[i]? = some jp[i] := List.getElem?_eq_getElem hiq
    have hv : i < vel.length := by omega
    obtain ⟨vel', h1, h2, h3, h4⟩ :=
      ih (i + 1) (vel.set i ((hjp[i] - jp[i]) * (1 / dt))) (by omega) hjpl
        (by simpa using hvl)
    refine ⟨vel', ?_, ?_, ?_, ?_⟩
    · simp only [measurementLoop, hp, hq, hv, if_true]
      exact h1
    · simpa using h2
    · intro j p q hij hpj hqj
      by_cases hji : j = i
      · subst hji
        rw [h4 j (Or.inl (by omega))]
        rw [hp] at hpj
        rw [hq] at hqj
        cases hpj
        cases hqj
        simp [List.getElem?_set, hv]
      · exact h3 j p q (by omega) hpj hqj
    · intro j hj
      rw [h4 j (by omega)]
      have hne : i ≠ j := by omega
      simp [List.getElem?_set, hne]

theorem measurement_first {P V A : Type} (s : HumanReach P V A) (p : List Point) (t : ℚ)
    (h : s.last_meas_timestep_ = -1) :
    s.measurement p t = some { s with joint_pos_ := p, last_meas_timestep_ := t } := by
  simp [HumanReach.measurement, h]

theorem measurement_small_dt {P V A : Type} (s : HumanReach P V A) (p : List Point) (t : ℚ)
    (h : s.last_meas_timestep_ ≠ -1) (hdt : t - s.last_meas_timestep_ < dtMin) :
    s.measurement p t = some { s with joint_pos_ := p, last_meas_timestep_ := t } := by
  simp [HumanReach.measurement, h, hdt]

theorem measurement_velocity {P V A : Type} (s : HumanReach P V A) (p : List Point) (t : ℚ)
    (h : s.last_meas_timestep_ ≠ -1) (hdt : dtMin ≤ t - s.last_meas_timestep_) :
    s.measurement p t =
      (measurementLoop p s.joint_pos_ (t - s.last_meas_timestep_) p.length 0 s.joint_vel_).map
        (fun vel => { s with
          joint_vel_ := vel
          has_second_meas_ := true
          joint_pos_ := p
          last_meas_timestep_ := t }) := by
  have hdt' : ¬ t - s.last_meas_timestep_ < dtMin := not_lt.mpr hdt
  simp only [HumanReach.measurement, h, hdt', ne_eq, not_false_eq_true, if_true, if_false]
  cases measurementLoop p s.joint_pos_ (t - s.last_meas_timestep_) p.length 0 s.joint_vel_ <;> rfl

theorem measurement_timestamp {P V A : Type} (s s1 : HumanReach P V A) (p : List Point)
    (t : ℚ) (h : s.measurement p t = some s1) :
    s1.last_meas_timestep_ = t ∧ s1.joint_pos_ = p := by
  by_cases h1 : s.last_meas_timestep_ = -1
  · rw [measurement_first s p t h1] at h
    cases h; exact ⟨rfl, rfl⟩
  · by_cases hdt : t - s.last_meas_timestep_ < dtMin
    · rw [measurement_small_dt s p t h1 hdt] at h
      cases h; exact ⟨rfl, rfl⟩
    · rw [measurement_velocity s p t h1 (not_lt.mp hdt)] at h
      cases hl : measurementLoop p s.joint_pos_ (t - s.last_meas_timestep_) p.length 0
        s.joint_vel_ with
      | none => rw [hl] at h; cases h
      | some vel => rw [hl] at h; cases h; exact ⟨rfl, rfl⟩

theorem measurement_defined {P V A : Type} (s : HumanReach P V A) (p : List Point) (t : ℚ)
    (hp : p.length ≤ s.joint_pos_.length) (hv : p.length ≤ s.joint_vel_.length) :
    ∃ s1, s.measurement p t = some s1 ∧ s1.joint_vel_.length = s.joint_vel_.length ∧
      s1.n_joints_meas_ = s.n_joints_meas_ := by
  by_cases h1 : s.last_meas_timestep_ = -1
  · exact ⟨_, measurement_first s p t h1, rfl, rfl⟩
  · by_cases hdt : t - s.last_meas_timestep_ < dtMin
    · exact ⟨_, measurement_small_dt s p t h1 hdt, rfl, rfl⟩
    · obtain ⟨vel, hl, hlen, -, -⟩ :=
        measurementLoop_spec p s.joint_pos_ (t - s.last_meas_timestep_) p.length 0 s.joint_vel_
          (by omega) hp hv
      refine ⟨{ s with
        joint_vel_ := vel
        has_second_meas_ := true
        joint_pos_ := p
        last_meas_timestep_ := t }, ?_, hlen, rfl⟩
      rw [measurement_velocity s p t h1 (not_lt.mp hdt), hl]
      rfl

theorem reset_length {P V A : Type} (s : HumanReach P V A) :
    s.reset.joint_pos_.length = s.joint_pos_.length + s.n_joints_meas_.toNat ∧
      s.reset.joint_vel_.length = s.joint_vel_.length + s.n_joints_meas_.toNat := by
  simp [HumanReach.reset, pushZeros]

/-! ### C1 -/

/-- C1, as stated, fails: with the first timestamp equal to the sentinel `-1`
the second call takes the first call for missing and computes no velocity. On
the freshly constructed one-joint buffer, `measurement([(0,0,0)], -1)` followed
by `measurement([(1,0,0)], 0)` has `dt = 1 ≥ 1e-7` and leaves the velocity at
`(0,0,0)`, not at `(1,0,0) / 1`. -/
theorem C1_counterexample_sentinel_timestamp :
    ∃ s1 s2 : HumanReach (ℚ × ℚ) (ℚ × ℚ) (ℚ × ℚ),
      HumanReach.new intervalLib (plainConfig 1) (-1) false false
        = .returned (plainObject intervalLib 1) ∧
      (plainObject intervalLib 1).measurement [⟨0, 0, 0⟩] (-1) = some s1 ∧
      s1.measurement [⟨1, 0, 0⟩] 0 = some s2 ∧
      dtMin ≤ (0 : ℚ) - (-1) ∧
      s2.joint_vel_ = [⟨0, 0, 0⟩] ∧
      (⟨0, 0, 0⟩ : Point) ≠ ⟨(1 - 0) / (0 - (-1)), (0 - 0) / (0 - (-1)), (0 - 0) / (0 - (-1))⟩ := by
  refine ⟨_, _, plainObject_constructed _ _ _, measurement_first _ _ _ rfl,
    measurement_first _ _ _ rfl, ?_, ?_, ?_⟩
  · norm_num [dtMin]
  · simp [plainObject, Point.zero]
  · norm_num

/-- C1 (amended): for two consecutive measurement calls `(p1, t1)`, `(p2, t2)`
whose position lists both have `n_joints_meas_` entries, on a buffer that holds
at least `n_joints_meas_` positions and velocities, with `t1 ≠ -1` and
`t2 - t1 ≥ 1e-7`, both calls return and after the second one the stored
velocity of every joint `i` is `(p2[i] - p1[i]) / (t2 - t1)`. -/
theorem C1_velocity_of_two_measurements {P V A : Type} (s : HumanReach P V A)
    (p1 p2 : List Point) (t1 t2 : ℚ)
    (h1 : p1.length = s.n_joints_meas_.toNat) (h2 : p2.length = s.n_joints_meas_.toNat)
    (hs : s.Sized) (ht1 : t1 ≠ -1) (hdt : dtMin ≤ t2 - t1) :
    ∃ s1 s2, s.measurement p1 t1 = some s1 ∧ s1.measurement p2 t2 = some s2 ∧
      ∀ (i : Nat) (a b : Point), p1[i]? = some a → p2[i]? = some b →
        s2.joint_vel_[i]? = some (Point.mk ((b.x - a.x) / (t2 - t1))
          ((b.y - a.y) / (t2 - t1)) ((b.z - a.z) / (t2 - t1))) := by
  obtain ⟨s1, hm1, hvl, -⟩ :=
    measurement_defined s p1 t1 (by rw [h1]; exact hs.1) (by rw [h1]; exact hs.2)
  obtain ⟨hts, hps⟩ := measurement_timestamp s s1 p1 t1 hm1
  have hne : s1.last_meas_timestep_ ≠ -1 := by rw [hts]; exact ht1
  obtain ⟨vel, hl, -, hcomp, -⟩ :=
    measurementLoop_spec p2 s1.joint_pos_ (t2 - s1.last_meas_timestep_) p2.length 0
      s1.joint_vel_ (by omega) (by rw [hps, h1, h2]) (by rw [hvl, h2]; exact hs.2)
  refine ⟨s1, { s1 with
    joint_vel_ := vel
    has_second_meas_ := true
    joint_pos_ := p2
    last_meas_timestep_ := t2 }, hm1, ?_, ?_⟩
  · rw [measurement_velocity s1 p2 t2 hne (by rw [hts]; exact hdt), hl]
    rfl
  · intro i a b ha hb
    rw [hps] at hcomp
    have := hcomp i b a (Nat.zero_le _) hb ha
    rw [hts] at this
    simp only [this, Option.some.injEq, Point.sub_def, Point.mul_def, Point.mk.injEq]
    refine ⟨?_, ?_, ?_⟩ <;> ring

/-- Witness of C1: on the two-joint buffer, `[(0,0,0),(1,0,0)]` at `t = 0` and
`[(0.1,0,0),(1.1,0,0)]` at `t = 0.1` give the velocity `(1,0,0)` for both joints. -/
theorem C1_velocity_of_two_measurements_witness :
    ∃ s1 s2 : HumanReach (ℚ × ℚ) (ℚ × ℚ) (ℚ × ℚ),
      (plainObject intervalLib 2).measurement [⟨0, 0, 0⟩, ⟨1, 0, 0⟩] 0 = some s1 ∧
      s1.measurement [⟨1 / 10, 0, 0⟩, ⟨11 / 10, 0, 0⟩] (1 / 10) = some s2 ∧
      s2.joint_vel_[0]? = some ⟨1, 0, 0⟩ ∧ s2.joint_vel_[1]? = some ⟨1, 0, 0⟩ := by
  obtain ⟨s1, s2, h1, h2, h3⟩ :=
    C1_velocity_of_two_measurements (plainObject intervalLib 2) [⟨0, 0, 0⟩, ⟨1, 0, 0⟩]
      [⟨1 / 10, 0, 0⟩, ⟨11 / 10, 0, 0⟩] 0 (1 / 10) rfl rfl
      (by simp [HumanReach.Sized, plainObject]) (by norm_num) (by norm_num [dtMin])
  refine ⟨s1, s2, h1, h2, ?_, ?_⟩
  · have := h3 0 _ _ rfl rfl
    norm_num at this
    exact this
  · have := h3 1 _ _ rfl rfl
    norm_num at this
    exact this

/-! ### C2 -/

/-- C2: for two consecutive measurement calls `(p1, t1)`, `(p2, t2)` with
`t2 - t1 < 1e-7`, the second call returns, the stored velocities are those
stored before it, the stored positions are `p2` and the stored timestamp is
`t2`. -/
theorem C2_small_dt_keeps_velocity {P V A : Type} (s s1 : HumanReach P V A)
    (p1 p2 : List Point) (t1 t2 : ℚ)
    (hfirst : s.measurement p1 t1 = some s1) (hdt : t2 - t1 < dtMin) :
    ∃ s2, s1.measurement p2 t2 = some s2 ∧ s2.joint_vel_ = s1.joint_vel_ ∧
      s2.joint_pos_ = p2 ∧ s2.last_meas_timestep_ = t2 := by
  obtain ⟨hts, -⟩ := measurement_timestamp s s1 p1 t1 hfirst
  by_cases h1 : s1.last_meas_timestep_ = -1
  · exact ⟨_, measurement_first s1 p2 t2 h1, rfl, rfl, rfl⟩
  · exact ⟨_, measurement_small_dt s1 p2 t2 h1 (by rw [hts]; exact hdt), rfl, rfl, rfl⟩

/-- Witness of C2: on the one-joint buffer, `[(1,0,0)]` at `t = 0`, then
`[(2,0,0)]` at `t = 1` (velocity `(1,0,0)`), then `[(5,0,0)]` at the same
`t = 1`: the velocity stays `(1,0,0)`, the position becomes `(5,0,0)`. -/
theorem C2_small_dt_keeps_velocity_witness :
    ∃ s1 s2 s3 : HumanReach (ℚ × ℚ) (ℚ × ℚ) (ℚ × ℚ),
      (plainObject intervalLib 1).measurement [⟨1, 0, 0⟩] 0 = some s1 ∧
      s1.measurement [⟨2, 0, 0⟩] 1 = some s2 ∧
      s2.joint_vel_ = [⟨1, 0, 0⟩] ∧
      s2.measurement [⟨5, 0, 0⟩] 1 = some s3 ∧ s3.joint_vel_ = [⟨1, 0, 0⟩] ∧
      s3.joint_pos_ = [⟨5, 0, 0⟩] ∧ s3.last_meas_timestep_ = 1 := by
  have h1 := measurement_first (plainObject intervalLib 1) [⟨1, 0, 0⟩] 0 rfl
  have h2 : HumanReach.measurement
      { plainObject intervalLib 1 with joint_pos_ := [⟨1, 0, 0⟩], last_meas_timestep_ := 0 }
      [⟨2, 0, 0⟩] 1 =
      some { plainObject intervalLib 1 with
        joint_pos_ := [⟨2, 0, 0⟩], last_meas_timestep_ := 1,
        joint_vel_ := [⟨1, 0, 0⟩], has_second_meas_ := true } := by
    rw [measurement_velocity _ _ _ (by norm_num) (by norm_num [dtMin])]
    simp [measurementLoop, plainObject, Point.zero, Point.sub_def, Point.mul_def]
    norm_num
  obtain ⟨s3, h3, hv, hp, ht⟩ :=
    C2_small_dt_keeps_velocity _ _ [⟨2, 0, 0⟩] [⟨5, 0, 0⟩] 1 1 h2 (by norm_num [dtMin])
  exact ⟨_, _, s3, h1, h2, rfl, h3, hv, hp, ht⟩

/-! ### C3 -/

/-- C3 fails on the code: `reset` pushes `n_joints_meas_` zero points behind the
entries already stored. Right after construction with one joint, `reset()`
leaves two positions and two velocities; after a measurement `[(1,0,0)]` at
`t = 0`, `reset()` leaves the positions `[(1,0,0), (0,0,0)]`. -/
theorem C3_reset_appends_to_stored_joints :
    HumanReach.new intervalLib (plainConfig 1) (-1) false false
        = .returned (plainObject intervalLib 1) ∧
      (plainObject intervalLib 1).n_joints_meas_ = 1 ∧
      (plainObject intervalLib 1).reset.joint_pos_ = [⟨0, 0, 0⟩, ⟨0, 0, 0⟩] ∧
      (plainObject intervalLib 1).reset.joint_vel_ = [⟨0, 0, 0⟩, ⟨0, 0, 0⟩] ∧
      ((plainObject intervalLib 1).measurement [⟨1, 0, 0⟩] 0).map
          (fun s => s.reset.joint_pos_) = some [⟨1, 0, 0⟩, ⟨0, 0, 0⟩] := by
  refine ⟨plainObject_constructed _ _ _, rfl, ?_, ?_, ?_⟩
  · simp [HumanReach.reset, pushZeros, plainObject, Point.zero]
  · simp [HumanReach.reset, pushZeros, plainObject, Point.zero]
  · rw [measurement_first _ _ _ rfl]
    simp [HumanReach.reset, pushZeros, plainObject, Point.zero]

/-! ## The reachability driver -/

theorem measuredObject_measured {P V A : Type} (lib : ReachLib P V A) (t : ℚ) :
    (plainObject lib 1).measurement [⟨0, 0, 0⟩] t = some (measuredObject lib t) :=
  measurement_first _ _ _ rfl

theorem updateModels_of_noThrow {P V A : Type} (lib : ReachLib P V A) (h : lib.NoThrow)
    (self : HumanReach P V A) (t_a t_b : ℚ) :
    self.updateModels lib t_a t_b
      = ⟨self.updated lib t_a t_b, self.threeCalls t_a t_b, .returned ()⟩ := by
  obtain ⟨hp, hv, ha⟩ := h
  have ep := hp t_a t_b self.joint_pos_ self.joint_vel_ self.human_p_
  have ev := hv t_a t_b self.joint_pos_ self.joint_vel_ self.human_v_
  have ea := ha t_a t_b self.joint_pos_ self.joint_vel_ self.human_a_
  unfold HumanReach.updateModels HumanReach.updated HumanReach.threeCalls
  rcases hP : lib.updateP t_a t_b self.joint_pos_ self.joint_vel_ self.human_p_ with ⟨p, op⟩
  rcases hV : lib.updateV t_a t_b self.joint_pos_ self.joint_vel_ self.human_v_ with ⟨v, ov⟩
  rcases hA : lib.updateA t_a t_b self.joint_pos_ self.joint_vel_ self.human_a_ with ⟨a, oa⟩
  rw [hP] at ep
  rw [hV] at ev
  rw [hA] at ea
  simp only at ep ev ea
  subst ep ev ea
  rfl

theorem afterSlices_buffer {P V A : Type} (lib : ReachLib P V A) (self : HumanReach P V A)
    (increment : ℚ) (k : Nat) :
    (self.afterSlices lib increment k).joint_pos_ = self.joint_pos_ ∧
      (self.afterSlices lib increment k).joint_vel_ = self.joint_vel_ ∧
      (self.afterSlices lib increment k).last_meas_timestep_ = self.last_meas_timestep_ := by
  induction k with
  | zero => exact ⟨rfl, rfl, rfl⟩
  | succ k ih => exact ih

theorem improvedLoop_of_noThrow {P V A : Type} (lib : ReachLib P V A) (h : lib.NoThrow)
    (self : HumanReach P V A) (increment : ℚ) :
    ∀ (k j : Nat) (list : List (List (List Capsule))) (calls : List UpdateCall),
      improvedLoop lib increment k (j * increment) (j * increment + increment)
          (self.afterSlices lib increment j) list calls
        = ⟨self.afterSlices lib increment (j + k),
            calls ++ (List.range' j k).flatMap
              (fun i => self.threeCalls (i * increment) (i * increment + increment)),
            .returned (list ++ (List.range' j k).map
              (fun i => (self.afterSlices lib increment (i + 1)).getAllCapsules lib))⟩ := by
  intro k
  induction k with
  | zero =>
    intro j list calls
    simp [improvedLoop]
  | succ k ih =>
    intro j list calls
    obtain ⟨hpos, hvel, -⟩ := afterSlices_buffer lib self increment j
    have hb : (j : ℚ) * increment + increment = ((j + 1 : Nat) : ℚ) * increment := by
      push_cast; ring
    have hcalls : (self.afterSlices lib increment j).threeCalls (j * increment)
        (j * increment + increment)
        = self.threeCalls (j * increment) (j * increment + increment) := by
      simp only [HumanReach.threeCalls, hpos, hvel]
    simp only [improvedLoop, updateModels_of_noThrow lib h]
    rw [hb]
    have := ih (j + 1) (list ++ [(self.afterSlices lib increment (j + 1)).getAllCapsules lib])
      (calls ++ (self.afterSlices lib increment j).threeCalls (j * increment)
        ((j + 1 : Nat) * increment))
    rw [HumanReach.afterSlices] at this
    rw [hb] at this
    rw [this, List.range'_succ, ← hb, hcalls]
    simp [List.flatMap_cons, List.append_assoc, Nat.add_assoc, Nat.add_comm 1 k]
    rfl

theorem improved_of_noThrow {P V A : Type} (lib : ReachLib P V A) (h : lib.NoThrow)
    (self : HumanReach P V A) (t_command current_motion_time goal_motion_time sample_time : ℚ)
    (hst : sample_time ≠ 0)
    (hlo : -2147483648 ≤ stepCount current_motion_time goal_motion_time sample_time)
    (hhi : stepCount current_motion_time goal_motion_time sample_time ≤ 2147483647) :
    self.improvedHumanReachabilityAnalysis lib t_command current_motion_time goal_motion_time
        sample_time
      = ⟨self.afterSlices lib
            ((t_command - self.last_meas_timestep_ + goal_motion_time) /
              stepCount current_motion_time goal_motion_time sample_time)
            (stepCount current_motion_time goal_motion_time sample_time).toNat,
          (List.range (stepCount current_motion_time goal_motion_time sample_time).toNat).flatMap
            (fun i => self.threeCalls
              (i * ((t_command - self.last_meas_timestep_ + goal_motion_time) /
                stepCount current_motion_time goal_motion_time sample_time))
              (i * ((t_command - self.last_meas_timestep_ + goal_motion_time) /
                stepCount current_motion_time goal_motion_time sample_time) +
                (t_command - self.last_meas_timestep_ + goal_motion_time) /
                  stepCount current_motion_time goal_motion_time sample_time)),
          .returned
            ((List.range (stepCount current_motion_time goal_motion_time sample_time).toNat).map
              (fun i => (self.afterSlices lib
                ((t_command - self.last_meas_timestep_ + goal_motion_time) /
                  stepCount current_motion_time goal_motion_time sample_time)
                (i + 1)).getAllCapsules lib))⟩ := by
  have hfit : toInt32 ⌈(goal_motion_time - current_motion_time) / sample_time⌉
      = some (stepCount current_motion_time goal_motion_time sample_time) := by
    unfold stepCount at hlo hhi ⊢
    simp [toInt32, hlo, hhi]
  unfold HumanReach.improvedHumanReachabilityAnalysis
  simp only [hst, if_false, hfit]
  have := improvedLoop_of_noThrow lib h self
    ((t_command - self.last_meas_timestep_ + goal_motion_time) /
      stepCount current_motion_time goal_motion_time sample_time)
    (stepCount current_motion_time goal_motion_time sample_time).toNat 0 [] []
  have h0 : self.afterSlices lib ((t_command - self.last_meas_timestep_ + goal_motion_time) /
      stepCount current_motion_time goal_motion_time sample_time) 0 = self := rfl
  rw [h0] at this
  simp only [Nat.cast_zero, zero_mul, zero_add, List.nil_append] at this
  rw [this, List.range_eq_range']

theorem improved_unfold {P V A : Type} (lib : ReachLib P V A) (self : HumanReach P V A)
    (t_command current_motion_time goal_motion_time sample_time : ℚ) (hst : sample_time ≠ 0)
    (k : ℤ) (hk : stepCount current_motion_time goal_motion_time sample_time = k)
    (hlo : -2147483648 ≤ k) (hhi : k ≤ 2147483647) :
    self.improvedHumanReachabilityAnalysis lib t_command current_motion_time goal_motion_time
        sample_time
      = improvedLoop lib ((t_command - self.last_meas_timestep_ + goal_motion_time) / k) k.toNat
          0 ((t_command - self.last_meas_timestep_ + goal_motion_time) / k) self [] [] := by
  have hfit : toInt32 ⌈(goal_motion_time - current_motion_time) / sample_time⌉ = some k := by
    unfold stepCount at hk
    rw [hk]
    simp [toInt32, hlo, hhi]
  unfold HumanReach.improvedHumanReachabilityAnalysis
  simp only [hst, if_false, hfit]

theorem stepCount_negative_example : stepCount (1 / 2) 0 (1 / 4) = -2 := by
  have : ((0 : ℚ) - 1 / 2) / (1 / 4) = ((-2 : ℤ) : ℚ) := by norm_num
  rw [stepCount, this, Int.ceil_intCast]

theorem intervalLib_noThrow : intervalLib.NoThrow := by
  simp [ReachLib.NoThrow, intervalLib]

theorem stepCount_example : stepCount 0 (1 / 2) (1 / 4) = 2 := by
  norm_num [stepCount]

theorem humanReachabilityAnalysis_of_noThrow {P V A : Type} (lib : ReachLib P V A)
    (h : lib.NoThrow) (self : HumanReach P V A) (t_command t_brake : ℚ) :
    self.humanReachabilityAnalysis lib t_command t_brake
      = ⟨self.updated lib 0 (t_command - self.last_meas_timestep_ + t_brake),
          self.threeCalls 0 (t_command - self.last_meas_timestep_ + t_brake), .returned ()⟩ := by
  simp only [HumanReach.humanReachabilityAnalysis, updateModels_of_noThrow lib h]

theorem map_model_threeCalls {P V A : Type} (self : HumanReach P V A) (f g : Nat → ℚ) (n : Nat) :
    ((List.range n).flatMap (fun i => self.threeCalls (f i) (g i))).map (fun c => c.model)
      = (List.replicate n [ModelKind.pos, ModelKind.vel, ModelKind.accel]).flatten := by
  induction n with
  | zero => rfl
  | succ n ih =>
    rw [List.range_succ, List.flatMap_append, List.map_append, ih, List.replicate_succ']
    simp [HumanReach.threeCalls]

/-! ### C4 -/

/-- C4 fails on the code: `improvedHumanReachabilityAnalysis` has no handler
around its model updates. With a position-limit model whose update throws, the
call `(1.0, 0.0, 0.5, 0.25)` after a measurement at `t = 0.9` is left by that
exception, whereas `humanReachabilityAnalysis(1.0, 0.5)` on the same object
returns. -/
theorem C4_improved_analysis_lets_fault_escape :
    (plainObject faultyPosLib 1).measurement [⟨0, 0, 0⟩] (9 / 10)
        = some (measuredObject faultyPosLib (9 / 10)) ∧
      ((measuredObject faultyPosLib (9 / 10)).improvedHumanReachabilityAnalysis faultyPosLib
        1 0 (1 / 2) (1 / 4)).outcome = .threw "ArticulatedPos::update" ∧
      ((measuredObject faultyPosLib (9 / 10)).humanReachabilityAnalysis faultyPosLib
        1 (1 / 2)).outcome = .returned () := by
  refine ⟨measuredObject_measured _ _, ?_, rfl⟩
  rw [improved_unfold _ _ _ _ _ _ (by norm_num) 2 stepCount_example (by decide) (by decide)]
  simp [improvedLoop, HumanReach.updateModels, faultyPosLib]

/-! ### C5 -/

/-- C5, as stated, fails: for `goal_motion_time < current_motion_time` the step
count is negative and the loop does not run. The call `(1.0, 0.5, 0.0, 0.25)`
has `ceil((0 - 0.5) / 0.25) = -2` and returns the empty sequence. -/
theorem C5_counterexample_negative_step_count :
    ((measuredObject intervalLib (9 / 10)).improvedHumanReachabilityAnalysis intervalLib
        1 (1 / 2) 0 (1 / 4)).outcome = .returned [] ∧
      stepCount (1 / 2) 0 (1 / 4) = -2 ∧
      ((([] : List (List (List Capsule))).length : ℤ) ≠ stepCount (1 / 2) 0 (1 / 4)) := by
  refine ⟨?_, stepCount_negative_example, ?_⟩
  · rw [improved_unfold _ _ _ _ _ _ (by norm_num) (-2) stepCount_negative_example (by decide)
      (by decide)]
    simp [improvedLoop]
  · rw [stepCount_negative_example]
    decide

/-- C5 (amended): when no model update throws, `sample_time` is not zero and the
step count `ceil((goal_motion_time - current_motion_time) / sample_time)` fits
an `int`, `improvedHumanReachabilityAnalysis` returns a sequence of exactly
`max(0, step count)` snapshots. -/
theorem C5_snapshot_count {P V A : Type} (lib : ReachLib P V A) (h : lib.NoThrow)
    (self : HumanReach P V A) (t_command current_motion_time goal_motion_time sample_time : ℚ)
    (hst : sample_time ≠ 0)
    (hlo : -2147483648 ≤ stepCount current_motion_time goal_motion_time sample_time)
    (hhi : stepCount current_motion_time goal_motion_time sample_time ≤ 2147483647) :
    ∃ list, (self.improvedHumanReachabilityAnalysis lib t_command current_motion_time
        goal_motion_time sample_time).outcome = .returned list ∧
      (list.length : ℤ) = max 0 (stepCount current_motion_time goal_motion_time sample_time) := by
  rw [improved_of_noThrow lib h self t_command current_motion_time goal_motion_time sample_time
    hst hlo hhi]
  refine ⟨_, rfl, ?_⟩
  rw [List.length_map, List.length_range, Int.toNat_eq_max, max_comm]

/-- Witness of C5: the call `(1.0, 0.0, 0.5, 0.25)` returns 2 snapshots. -/
theorem C5_snapshot_count_witness :
    ∃ list, ((measuredObject intervalLib (9 / 10)).improvedHumanReachabilityAnalysis intervalLib
        1 0 (1 / 2) (1 / 4)).outcome = .returned list ∧ list.length = 2 := by
  obtain ⟨list, h1, h2⟩ :=
    C5_snapshot_count intervalLib intervalLib_noThrow (measuredObject intervalLib (9 / 10))
      1 0 (1 / 2) (1 / 4) (by norm_num) (by rw [stepCount_example]; decide)
      (by rw [stepCount_example]; decide)
  refine ⟨list, h1, ?_⟩
  rw [stepCount_example] at h2
  exact_mod_cast h2

/-! ### C6 -/

/-- C6: in `improvedHumanReachabilityAnalysis` with `sample_time > 0`, a step
count `steps ≥ 1` (fitting an `int`) and no throwing update, let `increment =
(t_command - last_meas_timestep_ + goal_motion_time) / steps`. The call returns
`steps` snapshots; for every `i < steps` the `i`-th one is the snapshot taken
right after all three models were updated with the interval `[i * increment,
i * increment + increment]` and the stored positions and velocities, and the
updates invoked are exactly those, slice by slice: the running sums of the loop
equal the closed form. -/
theorem C6_slices_follow_closed_form {P V A : Type} (lib : ReachLib P V A) (h : lib.NoThrow)
    (self : HumanReach P V A) (t_command current_motion_time goal_motion_time sample_time : ℚ)
    (increment : ℚ) (hst : 0 < sample_time)
    (hsteps : 1 ≤ stepCount current_motion_time goal_motion_time sample_time)
    (hhi : stepCount current_motion_time goal_motion_time sample_time ≤ 2147483647)
    (hinc : increment = (t_command - self.last_meas_timestep_ + goal_motion_time) /
      stepCount current_motion_time goal_motion_time sample_time) :
    ∃ list, (self.improvedHumanReachabilityAnalysis lib t_command current_motion_time
        goal_motion_time sample_time).outcome = .returned list ∧
      (list.length : ℤ) = stepCount current_motion_time goal_motion_time sample_time ∧
      (∀ i : Nat, (i : ℤ) < stepCount current_motion_time goal_motion_time sample_time →
        list[i]? = some (((self.afterSlices lib increment i).updated lib
          (i * increment) (i * increment + increment)).getAllCapsules lib)) ∧
      (self.improvedHumanReachabilityAnalysis lib t_command current_motion_time
        goal_motion_time sample_time).calls
        = (List.range (stepCount current_motion_time goal_motion_time sample_time).toNat).flatMap
            (fun i => self.threeCalls (i * increment) (i * increment + increment)) := by
  rw [improved_of_noThrow lib h self t_command current_motion_time goal_motion_time sample_time
    (ne_of_gt hst) (by omega) hhi, ← hinc]
  refine ⟨_, rfl, ?_, ?_, rfl⟩
  · rw [List.length_map, List.length_range, Int.toNat_of_nonneg (by omega)]
  · intro i hi
    have hi' : i < (stepCount current_motion_time goal_motion_time sample_time).toNat := by
      omega
    rw [List.getElem?_map, List.getElem?_range hi']
    rfl

/-- Witness of C6: the call `(1.0, 0.0, 0.5, 0.25)` with the last measurement at
`0.9` has increment `0.3`; its two snapshots are taken after the updates over
`[0, 0.3]` and over `[0.3, 0.6]`. -/
theorem C6_slices_follow_closed_form_witness :
    ∃ list, ((measuredObject intervalLib (9 / 10)).improvedHumanReachabilityAnalysis intervalLib
        1 0 (1 / 2) (1 / 4)).outcome = .returned list ∧
      list.length = 2 ∧
      list[0]? = some [[⟨⟨0, 0, 0⟩, ⟨3 / 10, 0, 0⟩, 0⟩], [⟨⟨0, 0, 0⟩, ⟨3 / 10, 0, 0⟩, 0⟩],
        [⟨⟨0, 0, 0⟩, ⟨3 / 10, 0, 0⟩, 0⟩]] ∧
      list[1]? = some [[⟨⟨3 / 10, 0, 0⟩, ⟨3 / 5, 0, 0⟩, 0⟩], [⟨⟨3 / 10, 0, 0⟩, ⟨3 / 5, 0, 0⟩, 0⟩],
        [⟨⟨3 / 10, 0, 0⟩, ⟨3 / 5, 0, 0⟩, 0⟩]] ∧
      ((measuredObject intervalLib (9 / 10)).improvedHumanReachabilityAnalysis intervalLib
        1 0 (1 / 2) (1 / 4)).calls.map (fun c => (c.model, c.t_begin, c.t_end))
        = [(.pos, 0, 3 / 10), (.vel, 0, 3 / 10), (.accel, 0, 3 / 10),
           (.pos, 3 / 10, 3 / 5), (.vel, 3 / 10, 3 / 5), (.accel, 3 / 10, 3 / 5)] := by
  have hinc : (3 / 10 : ℚ) = (1 - (measuredObject intervalLib (9 / 10)).last_meas_timestep_
      + 1 / 2) / stepCount 0 (1 / 2) (1 / 4) := by
    rw [stepCount_example]
    norm_num [measuredObject]
  obtain ⟨list, h1, h2, h3, h4⟩ :=
    C6_slices_follow_closed_form intervalLib intervalLib_noThrow
      (measuredObject intervalLib (9 / 10)) 1 0 (1 / 2) (1 / 4) (3 / 10) (by norm_num)
      (by rw [stepCount_example]; decide) (by rw [stepCount_example]; decide) hinc
  rw [stepCount_example] at h2 h3 h4
  refine ⟨list, h1, by exact_mod_cast h2, ?_, ?_, ?_⟩
  · rw [h3 0 (by decide)]
    simp [HumanReach.getAllCapsules, HumanReach.updated, HumanReach.afterSlices, intervalLib]
  · rw [h3 1 (by decide)]
    simp [HumanReach.getAllCapsules, HumanReach.updated, HumanReach.afterSlices, intervalLib]
    norm_num
  · rw [h4]
    simp [List.range_succ, HumanReach.threeCalls]
    norm_num

/-! ### C7 -/

/-- C7: in `improvedHumanReachabilityAnalysis` with `sample_time > 0`, a step
count `steps ≥ 1` (fitting an `int`) and no throwing update, the intervals
handed to the models tile the human reach horizon: slice `i` updates the three
models over `[b i, e i]` with `b 0 = 0`, `e i = b (i + 1)` for `i < steps - 1`,
and `e (steps - 1) = t_command - last_meas_timestep_ + goal_motion_time`. -/
theorem C7_slices_tile_horizon {P V A : Type} (lib : ReachLib P V A) (h : lib.NoThrow)
    (self : HumanReach P V A) (t_command current_motion_time goal_motion_time sample_time : ℚ)
    (hst : 0 < sample_time)
    (hsteps : 1 ≤ stepCount current_motion_time goal_motion_time sample_time)
    (hhi : stepCount current_motion_time goal_motion_time sample_time ≤ 2147483647) :
    ∃ b e : Nat → ℚ,
      (self.improvedHumanReachabilityAnalysis lib t_command current_motion_time
        goal_motion_time sample_time).calls
        = (List.range (stepCount current_motion_time goal_motion_time sample_time).toNat).flatMap
            (fun i => self.threeCalls (b i) (e i)) ∧
      b 0 = 0 ∧
      (∀ i : Nat, (i : ℤ) + 1 < stepCount current_motion_time goal_motion_time sample_time →
        e i = b (i + 1)) ∧
      e ((stepCount current_motion_time goal_motion_time sample_time).toNat - 1)
        = t_command - self.last_meas_timestep_ + goal_motion_time := by
  rw [improved_of_noThrow lib h self t_command current_motion_time goal_motion_time sample_time
    (ne_of_gt hst) (by omega) hhi]
  refine ⟨_, _, rfl, ?_, ?_, ?_⟩
  · simp
  · intro i _
    push_cast
    ring
  · have hn : (((stepCount current_motion_time goal_motion_time sample_time).toNat - 1 : Nat) : ℚ)
        = (stepCount current_motion_time goal_motion_time sample_time : ℚ) - 1 := by
      have h1 : 1 ≤ (stepCount current_motion_time goal_motion_time sample_time).toNat := by
        omega
      rw [Nat.cast_sub h1]
      have h2 : (((stepCount current_motion_time goal_motion_time sample_time).toNat : ℤ) : ℚ)
          = (stepCount current_motion_time goal_motion_time sample_time : ℚ) := by
        rw [Int.toNat_of_nonneg (by omega)]
      rw [← h2, Int.cast_natCast, Nat.cast_one]
    have hpos : (stepCount current_motion_time goal_motion_time sample_time : ℚ) ≠ 0 := by
      have : (0 : ℤ) < stepCount current_motion_time goal_motion_time sample_time := by omega
      exact_mod_cast ne_of_gt this
    simp only [hn]
    field_simp
    ring

/-- Witness of C7: the call `(1.0, 0.0, 0.5, 0.25)` with the last measurement at
`0.9` covers the horizon `0.6` with two adjoining intervals starting at `0`. -/
theorem C7_slices_tile_horizon_witness :
    ∃ b e : Nat → ℚ,
      ((measuredObject intervalLib (9 / 10)).improvedHumanReachabilityAnalysis intervalLib
        1 0 (1 / 2) (1 / 4)).calls
        = (measuredObject intervalLib (9 / 10)).threeCalls (b 0) (e 0) ++
          (measuredObject intervalLib (9 / 10)).threeCalls (b 1) (e 1) ∧
      b 0 = 0 ∧ e 0 = b 1 ∧ e 1 = 3 / 5 := by
  obtain ⟨b, e, h1, h2, h3, h4⟩ :=
    C7_slices_tile_horizon intervalLib intervalLib_noThrow
      (measuredObject intervalLib (9 / 10)) 1 0 (1 / 2) (1 / 4) (by norm_num)
      (by rw [stepCount_example]; decide) (by rw [stepCount_example]; decide)
  rw [stepCount_example] at h1 h3 h4
  refine ⟨b, e, ?_, h2, h3 0 (by decide), ?_⟩
  · rw [h1]
    simp [List.range_succ]
  · have : (2 : ℤ).toNat - 1 = 1 := by decide
    rw [this] at h4
    rw [h4]
    norm_num [measuredObject]

/-! ### C8 -/

/-- C8: when no model update throws, `humanReachabilityAnalysis(t_command,
t_brake)` returns after updating each of the three models exactly once,
position-limit first, with interval start `0`, interval end `t_command -
last_meas_timestep_ + t_brake` and the stored joint positions and velocities. -/
theorem C8_single_shot_updates_each_model_once {P V A : Type} (lib : ReachLib P V A)
    (h : lib.NoThrow) (self : HumanReach P V A) (t_command t_brake : ℚ) :
    (self.humanReachabilityAnalysis lib t_command t_brake).outcome = .returned () ∧
      (self.humanReachabilityAnalysis lib t_command t_brake).calls
        = [⟨.pos, 0, t_command - self.last_meas_timestep_ + t_brake,
              self.joint_pos_, self.joint_vel_⟩,
           ⟨.vel, 0, t_command - self.last_meas_timestep_ + t_brake,
              self.joint_pos_, self.joint_vel_⟩,
           ⟨.accel, 0, t_command - self.last_meas_timestep_ + t_brake,
              self.joint_pos_, self.joint_vel_⟩] ∧
      (self.humanReachabilityAnalysis lib t_command t_brake).obj
        = self.updated lib 0 (t_command - self.last_meas_timestep_ + t_brake) := by
  rw [humanReachabilityAnalysis_of_noThrow lib h]
  exact ⟨rfl, rfl, rfl⟩

/-- Witness of C8: with the last measurement at `0.1`, the call
`humanReachabilityAnalysis(0.2, 0.05)` updates the three models over
`[0, 0.15]`. -/
theorem C8_single_shot_updates_each_model_once_witness :
    ((measuredObject intervalLib (1 / 10)).humanReachabilityAnalysis intervalLib
        (1 / 5) (1 / 20)).calls.map (fun c => (c.model, c.t_begin, c.t_end))
      = [(.pos, 0, 3 / 20), (.vel, 0, 3 / 20), (.accel, 0, 3 / 20)] := by
  rw [(C8_single_shot_updates_each_model_once intervalLib intervalLib_noThrow
    (measuredObject intervalLib (1 / 10)) (1 / 5) (1 / 20)).2.1]
  simp [measuredObject]
  norm_num

/-! ### C9 -/

/-- C9, as stated, fails: the three updates of `humanReachabilityAnalysis` share
one `try` block, so an update that throws keeps the later ones from running.
With a position-limit model whose update throws, `humanReachabilityAnalysis(0.2,
0.05)` invokes that update only. -/
theorem C9_counterexample_fault_skips_later_models :
    ((measuredObject faultyPosLib (1 / 10)).humanReachabilityAnalysis faultyPosLib
        (1 / 5) (1 / 20)).calls.map (fun c => c.model) = [.pos] ∧
      ((measuredObject faultyPosLib (1 / 10)).humanReachabilityAnalysis faultyPosLib
        (1 / 5) (1 / 20)).obj.human_v_ = (measuredObject faultyPosLib (1 / 10)).human_v_ := by
  constructor <;> rfl

/-- C9 (amended): in every call of `humanReachabilityAnalysis` the update of the
position-limit model is invoked; the update of the velocity-bound model is
invoked exactly when the former did not throw, and the update of the
acceleration-bound model exactly when neither did. When no update throws, all
three are invoked, in this order, in every call of `humanReachabilityAnalysis`
and in every slice of `improvedHumanReachabilityAnalysis` (for a non-zero
`sample_time` and a step count fitting an `int`). -/
theorem C9_models_updated_until_first_fault {P V A : Type} (lib : ReachLib P V A)
    (self : HumanReach P V A)
    (t_command t_brake current_motion_time goal_motion_time sample_time : ℚ)
    (hst : sample_time ≠ 0)
    (hlo : -2147483648 ≤ stepCount current_motion_time goal_motion_time sample_time)
    (hhi : stepCount current_motion_time goal_motion_time sample_time ≤ 2147483647) :
    (self.humanReachabilityAnalysis lib t_command t_brake).calls.map (fun c => c.model)
        = (if (lib.updateP 0 (t_command - self.last_meas_timestep_ + t_brake) self.joint_pos_
              self.joint_vel_ self.human_p_).2 ≠ none then [ModelKind.pos]
          else if (lib.updateV 0 (t_command - self.last_meas_timestep_ + t_brake) self.joint_pos_
              self.joint_vel_ self.human_v_).2 ≠ none then [ModelKind.pos, ModelKind.vel]
          else [ModelKind.pos, ModelKind.vel, ModelKind.accel]) ∧
      (lib.NoThrow →
        (self.humanReachabilityAnalysis lib t_command t_brake).calls.map (fun c => c.model)
            = [ModelKind.pos, ModelKind.vel, ModelKind.accel] ∧
          (self.improvedHumanReachabilityAnalysis lib t_command current_motion_time
            goal_motion_time sample_time).calls.map (fun c => c.model)
            = (List.replicate (stepCount current_motion_time goal_motion_time sample_time).toNat
                [ModelKind.pos, ModelKind.vel, ModelKind.accel]).flatten) := by
  constructor
  · unfold HumanReach.humanReachabilityAnalysis HumanReach.updateModels
    rcases hP : lib.updateP 0 (t_command - self.last_meas_timestep_ + t_brake) self.joint_pos_
      self.joint_vel_ self.human_p_ with ⟨p, _ | wp⟩
    · rcases hV : lib.updateV 0 (t_command - self.last_meas_timestep_ + t_brake) self.joint_pos_
        self.joint_vel_ self.human_v_ with ⟨v, _ | wv⟩
      · rcases hA : lib.updateA 0 (t_command - self.last_meas_timestep_ + t_brake)
          self.joint_pos_ self.joint_vel_ self.human_a_ with ⟨a, _ | wa⟩ <;> simp [hP, hV, hA]
      · simp [hP, hV]
    · simp [hP]
  · intro h
    rw [humanReachabilityAnalysis_of_noThrow lib h,
      improved_of_noThrow lib h self t_command current_motion_time goal_motion_time sample_time
        hst hlo hhi]
    exact ⟨rfl, map_model_threeCalls self _ _ _⟩

/-- Witness of C9: with a library that never throws, the call
`humanReachabilityAnalysis(1.0, 0.05)` invokes the three updates and the call
`improvedHumanReachabilityAnalysis(1.0, 0.0, 0.5, 0.25)` invokes them in each of
its two slices. -/
theorem C9_models_updated_until_first_fault_witness :
    ((measuredObject intervalLib (9 / 10)).humanReachabilityAnalysis intervalLib
        1 (1 / 20)).calls.map (fun c => c.model)
        = [ModelKind.pos, ModelKind.vel, ModelKind.accel] ∧
      ((measuredObject intervalLib (9 / 10)).improvedHumanReachabilityAnalysis intervalLib
        1 0 (1 / 2) (1 / 4)).calls.map (fun c => c.model)
        = [ModelKind.pos, ModelKind.vel, ModelKind.accel,
           ModelKind.pos, ModelKind.vel, ModelKind.accel] := by
  have h := (C9_models_updated_until_first_fault intervalLib
    (measuredObject intervalLib (9 / 10)) 1 (1 / 20) 0 (1 / 2) (1 / 4) (by norm_num)
    (by rw [stepCount_example]; decide) (by rw [stepCount_example]; decide)).2
    intervalLib_noThrow
  rw [stepCount_example] at h
  exact ⟨h.1, h.2⟩

/-! ### C10 -/

theorem new_buffer {P V A : Type} (lib : ReachLib P V A) (cfg : Config) (t0 : ℚ)
    (b0 nd : Bool) (s0 : HumanReach P V A) (h : HumanReach.new lib cfg t0 b0 nd = .returned s0) :
    s0.n_joints_meas_ = cfg.n_joints_meas ∧
      s0.joint_pos_ = List.replicate cfg.n_joints_meas.toNat Point.zero ∧
      s0.joint_vel_ = List.replicate cfg.n_joints_meas.toNat Point.zero := by
  unfold HumanReach.new at h
  simp only at h
  split at h
  · split at h
    · cases h
      simp [pushZeros]
    · cases h
  · cases h
  · cases h
  · cases h

theorem afterCalls_measurements {P V A : Type} (n : Nat) :
    ∀ (calls : List BufferCall) (s : HumanReach P V A),
      s.n_joints_meas_.toNat = n → s.joint_pos_.length = n → s.joint_vel_.length = n →
      (∀ c ∈ calls, ∃ p t, c = BufferCall.measurement p t ∧ p.length = n) →
      ∃ s1, s.afterCalls calls = some s1 ∧ s1.n_joints_meas_ = s.n_joints_meas_ ∧
        s1.joint_pos_.length = n ∧ s1.joint_vel_.length = n := by
  intro calls
  induction calls with
  | nil =>
    intro s _ hp hv _
    exact ⟨s, rfl, rfl, hp, hv⟩
  | cons c rest ih =>
    intro s hn hp hv hc
    obtain ⟨p, t, rfl, hlen⟩ := hc c (List.mem_cons_self _ _)
    obtain ⟨s1, hm, hvl, hn1⟩ := measurement_defined s p t (by omega) (by omega)
    obtain ⟨-, hps⟩ := measurement_timestamp s s1 p t hm
    obtain ⟨s2, h2, h3, h4, h5⟩ := ih s1 (by rw [hn1]; exact hn) (by rw [hps]; exact hlen)
      (by rw [hvl]; exact hv) (fun c hc' => hc c (List.mem_cons_of_mem _ hc'))
    refine ⟨s2, ?_, by rw [h3, hn1], h4, h5⟩
    simp only [HumanReach.afterCalls, hm]
    exact h2

/-- C10, as stated, fails: `measurement` assigns the list it is given to
`joint_pos_`, whatever its length. On the freshly constructed one-joint buffer,
`measurement([], 0)` leaves no stored position. -/
theorem C10_counterexample_measurement_of_other_length :
    HumanReach.new intervalLib (plainConfig 1) (-1) false false
        = .returned (plainObject intervalLib 1) ∧
      ((plainObject intervalLib 1).afterCalls [.measurement [] 0]).map
          (fun s => (s.n_joints_meas_, s.joint_pos_.length)) = some (1, 0) := by
  refine ⟨plainObject_constructed _ _ _, ?_⟩
  simp [HumanReach.afterCalls, measurement_first _ _ _ (rfl :
    (plainObject intervalLib 1).last_meas_timestep_ = -1)]
  rfl

/-- C10 (amended): in every state reached from construction by measurement
calls whose position lists all have exactly `n_joints_meas` entries (none for a
negative `n_joints_meas`), every call returns and the stored position list and
the stored velocity list each have exactly `n_joints_meas` entries. -/
theorem C10_joint_count_kept_by_measurements {P V A : Type} (lib : ReachLib P V A)
    (cfg : Config) (t0 : ℚ) (b0 nd : Bool) (s0 : HumanReach P V A) (calls : List BufferCall)
    (hnew : HumanReach.new lib cfg t0 b0 nd = .returned s0)
    (hcalls : ∀ c ∈ calls, ∃ p t, c = BufferCall.measurement p t ∧
      p.length = cfg.n_joints_meas.toNat) :
    ∃ s, s0.afterCalls calls = some s ∧ s.n_joints_meas_ = cfg.n_joints_meas ∧
      s.joint_pos_.length = cfg.n_joints_meas.toNat ∧
      s.joint_vel_.length = cfg.n_joints_meas.toNat := by
  obtain ⟨hn, hp, hv⟩ := new_buffer lib cfg t0 b0 nd s0 hnew
  obtain ⟨s, h1, h2, h3, h4⟩ := afterCalls_measurements cfg.n_joints_meas.toNat calls s0
    (by rw [hn]) (by rw [hp]; simp) (by rw [hv]; simp) hcalls
  exact ⟨s, h1, by rw [h2, hn], h3, h4⟩

/-- Witness of C10: the two-joint buffer after the measurements
`[(0,0,0),(1,0,0)]` at `t = 0` and `[(0.1,0,0),(1.1,0,0)]` at `t = 0.1` holds
two positions and two velocities. -/
theorem C10_joint_count_kept_by_measurements_witness :
    ∃ s : HumanReach (ℚ × ℚ) (ℚ × ℚ) (ℚ × ℚ),
      (plainObject intervalLib 2).afterCalls
          [.measurement [⟨0, 0, 0⟩, ⟨1, 0, 0⟩] 0,
           .measurement [⟨1 / 10, 0, 0⟩, ⟨11 / 10, 0, 0⟩] (1 / 10)] = some s ∧
      s.n_joints_meas_ = 2 ∧ s.joint_pos_.length = 2 ∧ s.joint_vel_.length = 2 :=
  C10_joint_count_kept_by_measurements intervalLib (plainConfig 2) (-1) false false
    (plainObject intervalLib 2) _ (plainObject_constructed _ _ _)
    (by
      intro c hc
      simp only [List.mem_cons, List.mem_singleton, List.not_mem_nil, or_false] at hc
      rcases hc with rfl | rfl
      · exact ⟨_, _, rfl, rfl⟩
      · exact ⟨_, _, rfl, rfl⟩)

/-! ### C11 -/

/-- C11: right after `reset()` no prior measurement exists, and
`measurement(positions, time)` then returns with `positions` as the stored joint
positions, `time` as the stored timestamp and every stored velocity as it was
before the call, for every list and every time. -/
theorem C11_first_measurement_after_reset {P V A : Type} (s : HumanReach P V A)
    (positions : List Point) (time : ℚ) :
    ∃ s1, s.reset.measurement positions time = some s1 ∧ s1.joint_pos_ = positions ∧
      s1.last_meas_timestep_ = time ∧ s1.joint_vel_ = s.reset.joint_vel_ :=
  ⟨_, measurement_first s.reset positions time rfl, rfl, rfl, rfl⟩

/-! ### C12 -/

theorem humanReachabilityAnalysis_calls {P V A : Type} (lib : ReachLib P V A)
    (self : HumanReach P V A) (t_command t_brake : ℚ) :
    (self.humanReachabilityAnalysis lib t_command t_brake).calls ≠ [] ∧
      ∀ c ∈ (self.humanReachabilityAnalysis lib t_command t_brake).calls,
        c.t_begin = 0 ∧ c.t_end = t_command - self.last_meas_timestep_ + t_brake := by
  unfold HumanReach.humanReachabilityAnalysis HumanReach.updateModels
  rcases hP : lib.updateP 0 (t_command - self.last_meas_timestep_ + t_brake) self.joint_pos_
    self.joint_vel_ self.human_p_ with ⟨p, _ | wp⟩
  · rcases hV : lib.updateV 0 (t_command - self.last_meas_timestep_ + t_brake) self.joint_pos_
      self.joint_vel_ self.human_v_ with ⟨v, _ | wv⟩
    · rcases hA : lib.updateA 0 (t_command - self.last_meas_timestep_ + t_brake)
        self.joint_pos_ self.joint_vel_ self.human_a_ with ⟨a, _ | wa⟩ <;> simp [hP, hV, hA]
    · simp [hP, hV]
  · simp [hP]

/-- C12, as stated, fails: `humanReachabilityAnalysis` hands the models the
interval `[0, t_command - last_meas_timestep_ + t_brake]` without any guard.
With the last measurement at `1`, the call `humanReachabilityAnalysis(0, 0)`
updates the three models over `[0, -1]`. -/
theorem C12_counterexample_negative_horizon :
    ((measuredObject intervalLib 1).humanReachabilityAnalysis intervalLib 0 0).calls.map
        (fun c => (c.model, c.t_begin, c.t_end))
        = [(.pos, 0, -1), (.vel, 0, -1), (.accel, 0, -1)] ∧
      ((-1 : ℚ) < 0) := by
  rw [humanReachabilityAnalysis_of_noThrow intervalLib intervalLib_noThrow]
  simp [HumanReach.threeCalls, measuredObject]

/-- C12 (amended): for every `t_command`, `t_brake` and stored
`last_meas_timestep_` with `t_command - last_meas_timestep_ + t_brake ≥ 0`,
`humanReachabilityAnalysis` invokes at least one model update and every update
it invokes receives the interval `[0, t_command - last_meas_timestep_ +
t_brake]`, whose end is not smaller than its start. -/
theorem C12_interval_not_inverted_for_nonnegative_horizon {P V A : Type}
    (lib : ReachLib P V A) (self : HumanReach P V A) (t_command t_brake : ℚ)
    (h : 0 ≤ t_command - self.last_meas_timestep_ + t_brake) :
    (self.humanReachabilityAnalysis lib t_command t_brake).calls ≠ [] ∧
      ∀ c ∈ (self.humanReachabilityAnalysis lib t_command t_brake).calls,
        c.t_begin = 0 ∧ c.t_end = t_command - self.last_meas_timestep_ + t_brake ∧
          c.t_begin ≤ c.t_end := by
  obtain ⟨h1, h2⟩ := humanReachabilityAnalysis_calls lib self t_command t_brake
  refine ⟨h1, fun c hc => ?_⟩
  obtain ⟨hb, he⟩ := h2 c hc
  exact ⟨hb, he, by rw [hb, he]; exact h⟩

/-- Witness of C12: with the last measurement at `0.1`, the call
`humanReachabilityAnalysis(0.2, 0.05)` has the horizon `0.15 ≥ 0`, also with a
position-limit model whose update throws. -/
theorem C12_interval_not_inverted_for_nonnegative_horizon_witness :
    ((measuredObject faultyPosLib (1 / 10)).humanReachabilityAnalysis faultyPosLib
        (1 / 5) (1 / 20)).calls ≠ [] ∧
      ∀ c ∈ ((measuredObject faultyPosLib (1 / 10)).humanReachabilityAnalysis faultyPosLib
          (1 / 5) (1 / 20)).calls,
        c.t_begin = 0 ∧
          c.t_end = 1 / 5 - (measuredObject faultyPosLib (1 / 10)).last_meas_timestep_ + 1 / 20 ∧
          c.t_begin ≤ c.t_end :=
  C12_interval_not_inverted_for_nonnegative_horizon faultyPosLib
    (measuredObject faultyPosLib (1 / 10)) (1 / 5) (1 / 20) (by norm_num [measuredObject])

/-! ### C13 -/

/-- C13, as stated, fails: the increment has the sign of the human reach
horizon `t_command - last_meas_timestep_ + goal_motion_time`, which nothing
keeps positive. With the last measurement at `0.9`, the call `(0.0, 0.0, 0.5,
0.25)` has `sample_time > 0`, 2 steps, the horizon `-0.4` and the slices
`[0, -0.2]` and `[-0.2, -0.4]`. -/
theorem C13_counterexample_negative_increment :
    (0 : ℚ) < 1 / 4 ∧ stepCount 0 (1 / 2) (1 / 4) = 2 ∧
      ((measuredObject intervalLib (9 / 10)).improvedHumanReachabilityAnalysis intervalLib
        0 0 (1 / 2) (1 / 4)).calls.map (fun c => (c.model, c.t_begin, c.t_end))
        = [(.pos, 0, -1 / 5), (.vel, 0, -1 / 5), (.accel, 0, -1 / 5),
           (.pos, -1 / 5, -2 / 5), (.vel, -1 / 5, -2 / 5), (.accel, -1 / 5, -2 / 5)] ∧
      ¬ ((0 : ℚ) < -1 / 5) ∧ ¬ ((-1 / 5 : ℚ) < -2 / 5) := by
  refine ⟨by norm_num, stepCount_example, ?_, by norm_num, by norm_num⟩
  rw [improved_of_noThrow intervalLib intervalLib_noThrow _ _ _ _ _ (by norm_num)
    (by rw [stepCount_example]; decide) (by rw [stepCount_example]; decide), stepCount_example]
  simp [List.range_succ, HumanReach.threeCalls, measuredObject]
  norm_num

/-- C13 (amended): in `improvedHumanReachabilityAnalysis` with `sample_time >
0`, a step count `steps ≥ 1` (fitting an `int`), no throwing update and a
positive human reach horizon `t_command - last_meas_timestep_ +
goal_motion_time`, slice `i` updates the three models over `[b i, e i]` with
`b i < e i` for every `i < steps` and `b i < b (i + 1)` for every
`i < steps - 1`. -/
theorem C13_slices_strictly_increase {P V A : Type} (lib : ReachLib P V A) (h : lib.NoThrow)
    (self : HumanReach P V A) (t_command current_motion_time goal_motion_time sample_time : ℚ)
    (hst : 0 < sample_time)
    (hsteps : 1 ≤ stepCount current_motion_time goal_motion_time sample_time)
    (hhi : stepCount current_motion_time goal_motion_time sample_time ≤ 2147483647)
    (hreach : 0 < t_command - self.last_meas_timestep_ + goal_motion_time) :
    ∃ b e : Nat → ℚ,
      (self.improvedHumanReachabilityAnalysis lib t_command current_motion_time
        goal_motion_time sample_time).calls
        = (List.range (stepCount current_motion_time goal_motion_time sample_time).toNat).flatMap
            (fun i => self.threeCalls (b i) (e i)) ∧
      (∀ i : Nat, (i : ℤ) < stepCount current_motion_time goal_motion_time sample_time →
        b i < e i) ∧
      (∀ i : Nat, (i : ℤ) + 1 < stepCount current_motion_time goal_motion_time sample_time →
        b i < b (i + 1)) := by
  rw [improved_of_noThrow lib h self t_command current_motion_time goal_motion_time sample_time
    (ne_of_gt hst) (by omega) hhi]
  have hpos : (0 : ℚ) < (stepCount current_motion_time goal_motion_time sample_time : ℚ) := by
    have : (0 : ℤ) < stepCount current_motion_time goal_motion_time sample_time := by omega
    exact_mod_cast this
  have hinc : 0 < (t_command - self.last_meas_timestep_ + goal_motion_time) /
      (stepCount current_motion_time goal_motion_time sample_time : ℚ) := div_pos hreach hpos
  refine ⟨_, _, rfl, ?_, ?_⟩
  · intro i _
    linarith
  · intro i _
    push_cast
    linarith

/-- Witness of C13: the call `(1.0, 0.0, 0.5, 0.25)` with the last measurement
at `0.9` has the horizon `0.6 > 0` and two slices in increasing order. -/
theorem C13_slices_strictly_increase_witness :
    ∃ b e : Nat → ℚ,
      ((measuredObject intervalLib (9 / 10)).improvedHumanReachabilityAnalysis intervalLib
        1 0 (1 / 2) (1 / 4)).calls
        = (measuredObject intervalLib (9 / 10)).threeCalls (b 0) (e 0) ++
          (measuredObject intervalLib (9 / 10)).threeCalls (b 1) (e 1) ∧
      b 0 < e 0 ∧ b 1 < e 1 ∧ b 0 < b 1 := by
  obtain ⟨b, e, h1, h2, h3⟩ :=
    C13_slices_strictly_increase intervalLib intervalLib_noThrow
      (measuredObject intervalLib (9 / 10)) 1 0 (1 / 2) (1 / 4) (by norm_num)
      (by rw [stepCount_example]; decide) (by rw [stepCount_example]; decide)
      (by norm_num [measuredObject])
  rw [stepCount_example] at h1 h2 h3
  refine ⟨b, e, ?_, h2 0 (by decide), h2 1 (by decide), h3 0 (by decide)⟩
  rw [h1]
  simp [List.range_succ]

/-! ### C14 -/

/-- C14: a call `measurement(positions, time)` that returns leaves the three
motion models, `n_joints_meas_`, the body-segment map and the three uncertainty
scalars as they were, on every branch; only the joint positions, the joint
velocities, the timestamp and the has-second-measurement flag can differ. -/
theorem C14_measurement_frame {P V A : Type} (s s1 : HumanReach P V A)
    (positions : List Point) (time : ℚ) (hm : s.measurement positions time = some s1) :
    s1.human_p_ = s.human_p_ ∧ s1.human_v_ = s.human_v_ ∧ s1.human_a_ = s.human_a_ ∧
      s1.n_joints_meas_ = s.n_joints_meas_ ∧ s1.body_link_joints_ = s.body_link_joints_ ∧
      s1.measurement_error_pos_ = s.measurement_error_pos_ ∧
      s1.measurement_error_vel_ = s.measurement_error_vel_ ∧ s1.delay_ = s.delay_ := by
  by_cases h1 : s.last_meas_timestep_ = -1
  · rw [measurement_first s positions time h1] at hm
    cases hm
    exact ⟨rfl, rfl, rfl, rfl, rfl, rfl, rfl, rfl⟩
  · by_cases hdt : time - s.last_meas_timestep_ < dtMin
    · rw [measurement_small_dt s positions time h1 hdt] at hm
      cases hm
      exact ⟨rfl, rfl, rfl, rfl, rfl, rfl, rfl, rfl⟩
    · rw [measurement_velocity s positions time h1 (not_lt.mp hdt)] at hm
      cases hl : measurementLoop positions s.joint_pos_ (time - s.last_meas_timestep_)
        positions.length 0 s.joint_vel_ with
      | none => rw [hl] at hm; cases hm
      | some vel =>
        rw [hl] at hm
        cases hm
        exact ⟨rfl, rfl, rfl, rfl, rfl, rfl, rfl, rfl⟩

/-- Witness of C14: on an object whose models were updated over `[0, 0.15]`
after a measurement `[(0,0,0)]` at `t = 0.1`, the measurement `[(1,0,0)]` at
`t = 1.1` (branch `dt ≥ 1e-7`) returns, sets the velocity `(1,0,0)` and keeps
the interval held by each model. -/
theorem C14_measurement_frame_witness :
    ∃ s1 : HumanReach (ℚ × ℚ) (ℚ × ℚ) (ℚ × ℚ),
      ((measuredObject intervalLib (1 / 10)).updated intervalLib 0 (3 / 20)).measurement
          [⟨1, 0, 0⟩] (11 / 10) = some s1 ∧
      s1.joint_vel_ = [⟨1, 0, 0⟩] ∧
      s1.human_p_ = (0, 3 / 20) ∧ s1.human_v_ = (0, 3 / 20) ∧ s1.human_a_ = (0, 3 / 20) ∧
      s1.n_joints_meas_ = 1 ∧ s1.body_link_joints_ = [] ∧
      s1.measurement_error_pos_ = 0 ∧ s1.measurement_error_vel_ = 0 ∧ s1.delay_ = 0 := by
  have hm : ((measuredObject intervalLib (1 / 10)).updated intervalLib 0 (3 / 20)).measurement
      [⟨1, 0, 0⟩] (11 / 10)
      = some { (measuredObject intervalLib (1 / 10)).updated intervalLib 0 (3 / 20) with
          joint_vel_ := [⟨1, 0, 0⟩], has_second_meas_ := true,
          joint_pos_ := [⟨1, 0, 0⟩], last_meas_timestep_ := 11 / 10 } := by
    rw [measurement_velocity _ _ _ (by norm_num [measuredObject, HumanReach.updated])
      (by norm_num [dtMin, measuredObject, HumanReach.updated])]
    simp [measurementLoop, measuredObject, HumanReach.updated, plainObject, Point.zero,
      Point.sub_def, Point.mul_def]
    norm_num
  obtain ⟨h1, h2, h3, h4, h5, h6, h7, h8⟩ := C14_measurement_frame _ _ _ _ hm
  exact ⟨_, hm, rfl, h1, h2, h3, h4, h5, h6, h7, h8⟩

/-! ### C16 -/

theorem reset_sized {P V A : Type} (s : HumanReach P V A) (hs : s.Sized) :
    s.reset.Sized ∧ s.reset.n_joints_meas_ = s.n_joints_meas_ := by
  obtain ⟨hp, hv⟩ := reset_length s
  obtain ⟨h1, h2⟩ := hs
  refine ⟨⟨?_, ?_⟩, rfl⟩
  · show s.n_joints_meas_.toNat ≤ s.reset.joint_pos_.length
    omega
  · show s.n_joints_meas_.toNat ≤ s.reset.joint_vel_.length
    omega

theorem afterCalls_sized {P V A : Type} :
    ∀ (calls : List BufferCall) (s : HumanReach P V A), s.Sized →
      (∀ c ∈ calls, c = BufferCall.reset ∨
        ∃ p t, c = BufferCall.measurement p t ∧ p.length = s.n_joints_meas_.toNat) →
      ∃ s1, s.afterCalls calls = some s1 ∧ s1.n_joints_meas_ = s.n_joints_meas_ ∧ s1.Sized := by
  intro calls
  induction calls with
  | nil =>
    intro s hs _
    exact ⟨s, rfl, rfl, hs⟩
  | cons c rest ih =>
    intro s hs hc
    rcases hc c (List.mem_cons_self _ _) with rfl | ⟨p, t, rfl, hlen⟩
    · obtain ⟨hrs, hrn⟩ := reset_sized s hs
      obtain ⟨s1, h1, h2, h3⟩ := ih s.reset hrs
        (fun c hc' => by rw [hrn]; exact hc c (List.mem_cons_of_mem _ hc'))
      exact ⟨s1, h1, by rw [h2, hrn], h3⟩
    · obtain ⟨s1, hm, hvl, hn1⟩ :=
        measurement_defined s p t (by rw [hlen]; exact hs.1) (by rw [hlen]; exact hs.2)
      obtain ⟨-, hps⟩ := measurement_timestamp s s1 p t hm
      have hs1 : s1.Sized := by
        refine ⟨?_, ?_⟩
        · rw [hn1, hps, hlen]
        · rw [hn1, hvl]
          exact hs.2
      obtain ⟨s2, h2, h3, h4⟩ := ih s1 hs1
        (fun c hc' => by rw [hn1]; exact hc c (List.mem_cons_of_mem _ hc'))
      refine ⟨s2, ?_, by rw [h3, hn1], h4⟩
      simp only [HumanReach.afterCalls, hm]
      exact h2

/-- C16: in every state reached from construction by any sequence of `reset()`
calls and of measurement calls whose position lists all have exactly
`n_joints_meas` entries, every call of the sequence is defined (no access
`joint_vel_[i]` or `joint_pos_[i]` past the end), both stored lists have at
least `n_joints_meas` entries, and one more such measurement is defined too. -/
theorem C16_velocity_accesses_in_bounds {P V A : Type} (lib : ReachLib P V A)
    (cfg : Config) (t0 : ℚ) (b0 nd : Bool) (s0 : HumanReach P V A) (calls : List BufferCall)
    (hnew : HumanReach.new lib cfg t0 b0 nd = .returned s0)
    (hcalls : ∀ c ∈ calls, c = BufferCall.reset ∨
      ∃ p t, c = BufferCall.measurement p t ∧ (p.length : ℤ) = cfg.n_joints_meas) :
    ∃ s, s0.afterCalls calls = some s ∧
      cfg.n_joints_meas ≤ (s.joint_pos_.length : ℤ) ∧
      cfg.n_joints_meas ≤ (s.joint_vel_.length : ℤ) ∧
      ∀ (p : List Point) (t : ℚ), (p.length : ℤ) = cfg.n_joints_meas →
        ∃ s1, s.measurement p t = some s1 := by
  obtain ⟨hn, hp, hv⟩ := new_buffer lib cfg t0 b0 nd s0 hnew
  have hs0 : s0.Sized := by
    refine ⟨?_, ?_⟩
    · rw [hn, hp]; simp
    · rw [hn, hv]; simp
  obtain ⟨s, h1, h2, h3, h4⟩ := afterCalls_sized calls s0 hs0 (by
    intro c hc
    rcases hcalls c hc with rfl | ⟨p, t, rfl, hlen⟩
    · exact Or.inl rfl
    · exact Or.inr ⟨p, t, rfl, by rw [hn]; omega⟩)
  rw [hn] at h2
  rw [h2] at h3 h4
  refine ⟨s, h1, by omega, by omega, ?_⟩
  intro p t hlen
  obtain ⟨s1, hm, -, -⟩ := measurement_defined s p t (by omega) (by omega)
  exact ⟨s1, hm⟩

/-- Witness of C16: the two-joint buffer after a measurement at `t = 0`, a
`reset()` and a measurement at `t = 0.1` still holds at least two positions and
two velocities. -/
theorem C16_velocity_accesses_in_bounds_witness :
    ∃ s : HumanReach (ℚ × ℚ) (ℚ × ℚ) (ℚ × ℚ),
      (plainObject intervalLib 2).afterCalls
          [.measurement [⟨0, 0, 0⟩, ⟨1, 0, 0⟩] 0, .reset,
           .measurement [⟨1 / 10, 0, 0⟩, ⟨11 / 10, 0, 0⟩] (1 / 10)] = some s ∧
      (plainConfig 2).n_joints_meas ≤ (s.joint_pos_.length : ℤ) ∧
      (plainConfig 2).n_joints_meas ≤ (s.joint_vel_.length : ℤ) ∧
      ∀ (p : List Point) (t : ℚ), (p.length : ℤ) = (plainConfig 2).n_joints_meas →
        ∃ s1, s.measurement p t = some s1 :=
  C16_velocity_accesses_in_bounds intervalLib (plainConfig 2) (-1) false false
    (plainObject intervalLib 2) _ (plainObject_constructed _ _ _)
    (by
      intro c hc
      simp only [List.mem_cons, List.mem_singleton, List.not_mem_nil, or_false] at hc
      rcases hc with rfl | rfl | rfl
      · exact Or.inr ⟨_, _, rfl, rfl⟩
      · exact Or.inl rfl
      · exact Or.inr ⟨_, _, rfl, rfl⟩)

/-! ### C18 -/

/-- C18: when `sample_time` is not zero and the step count
`ceil((goal_motion_time - current_motion_time) / sample_time)` is not positive
(and fits an `int`), `improvedHumanReachabilityAnalysis` invokes no model
update, leaves the object, the models included, as it was and returns the empty
sequence. -/
theorem C18_no_slice_for_nonpositive_step_count {P V A : Type} (lib : ReachLib P V A)
    (self : HumanReach P V A) (t_command current_motion_time goal_motion_time sample_time : ℚ)
    (hst : sample_time ≠ 0)
    (hlo : -2147483648 ≤ stepCount current_motion_time goal_motion_time sample_time)
    (hle : stepCount current_motion_time goal_motion_time sample_time ≤ 0) :
    (self.improvedHumanReachabilityAnalysis lib t_command current_motion_time goal_motion_time
        sample_time).calls = [] ∧
      (self.improvedHumanReachabilityAnalysis lib t_command current_motion_time goal_motion_time
        sample_time).obj = self ∧
      (self.improvedHumanReachabilityAnalysis lib t_command current_motion_time goal_motion_time
        sample_time).outcome = .returned [] := by
  rw [improved_unfold lib self t_command current_motion_time goal_motion_time sample_time hst
    _ rfl hlo (by omega)]
  have h0 : (stepCount current_motion_time goal_motion_time sample_time).toNat = 0 := by omega
  rw [h0]
  exact ⟨rfl, rfl, rfl⟩

/-- Witness of C18: the call `(1.0, 0.5, 0.5, 0.25)`, with `goal_motion_time =
current_motion_time`, has the step count `0`; with a position-limit model whose
update would throw it returns the empty sequence and the object is as before. -/
theorem C18_no_slice_for_nonpositive_step_count_witness :
    ((measuredObject faultyPosLib (9 / 10)).improvedHumanReachabilityAnalysis faultyPosLib
        1 (1 / 2) (1 / 2) (1 / 4)).calls = [] ∧
      ((measuredObject faultyPosLib (9 / 10)).improvedHumanReachabilityAnalysis faultyPosLib
        1 (1 / 2) (1 / 2) (1 / 4)).obj = measuredObject faultyPosLib (9 / 10) ∧
      ((measuredObject faultyPosLib (9 / 10)).improvedHumanReachabilityAnalysis faultyPosLib
        1 (1 / 2) (1 / 2) (1 / 4)).outcome = .returned [] := by
  have h0 : stepCount (1 / 2) (1 / 2) (1 / 4) = 0 := by norm_num [stepCount]
  exact C18_no_slice_for_nonpositive_step_count faultyPosLib
    (measuredObject faultyPosLib (9 / 10)) 1 (1 / 2) (1 / 2) (1 / 4) (by norm_num)
    (by rw [h0]; decide) (by rw [h0])

/-! ## The constructor's extremity loop -/

theorem StdMap.at_assign_self {T : Type} (m : StdMap T) (k : String) (v : T) :
    (m.assign k v).at k = some v := by
  induction m with
  | nil => simp [StdMap.assign, StdMap.at]
  | cons hd tl ih =>
    obtain ⟨k0, v0⟩ := hd
    by_cases h : k0 = k
    · simp [StdMap.assign, StdMap.at, h]
    · simp [StdMap.assign, StdMap.at, h, ih]

theorem StdMap.at_assign_of_ne {T : Type} (m : StdMap T) (k k1 : String) (v : T)
    (h : k ≠ k1) : (m.assign k v).at k1 = m.at k1 := by
  induction m with
  | nil => simp [StdMap.assign, StdMap.at, h]
  | cons hd tl ih =>
    obtain ⟨k0, v0⟩ := hd
    by_cases h0 : k0 = k
    · subst h0
      simp [StdMap.assign, StdMap.at, h]
    · by_cases h1 : k0 = k1
      · subst h1
        simp [StdMap.assign, StdMap.at, h0]
      · simp [StdMap.assign, StdMap.at, h0, h1, ih]

theorem StdMap.length_assign_of_at_none {T : Type} (m : StdMap T) (k : String) (v : T)
    (h : m.at k = none) : (m.assign k v).length = m.length + 1 := by
  induction m with
  | nil => simp [StdMap.assign]
  | cons hd tl ih =>
    obtain ⟨k0, v0⟩ := hd
    by_cases h0 : k0 = k
    · simp [StdMap.at, h0] at h
    · simp only [StdMap.at, h0, if_false] at h
      simp [StdMap.assign, h0, ih h]

theorem extremityLoop_succ_returned (cfg : Config) (k i : Nat) (segs : StdMap jointPair)
    (maxv : List ℚ) (r : StdMap jointPair × List ℚ)
    (h : extremityLoop cfg (k + 1) i segs maxv = .returned r) :
    ∃ b e jb je vb ve, cfg.extremity_base_names[i]? = some b ∧
      cfg.extremity_end_names[i]? = some e ∧
      cfg.joint_names.at b = some jb ∧ cfg.joint_names.at e = some je ∧
      vectorAt cfg.max_v jb = some vb ∧ vectorAt cfg.max_v je = some ve ∧
      extremityLoop cfg k (i + 1) (segs.assign b (jb, je)) (maxv ++ [max vb ve])
        = .returned r := by
  obtain ⟨b, hb⟩ : ∃ b, cfg.extremity_base_names[i]? = some b := by
    cases hb : cfg.extremity_base_names[i]? with
    | none => simp [extremityLoop, hb] at h
    | some b => exact ⟨b, rfl⟩
  obtain ⟨e, he⟩ : ∃ e, cfg.extremity_end_names[i]? = some e := by
    cases he : cfg.extremity_end_names[i]? with
    | none => simp [extremityLoop, hb, he] at h
    | some e => exact ⟨e, rfl⟩
  obtain ⟨jb, hjb⟩ : ∃ jb, cfg.joint_names.at b = some jb := by
    cases hjb : cfg.joint_names.at b with
    | none => simp [extremityLoop, hb, he, hjb] at h
    | some jb => exact ⟨jb, rfl⟩
  obtain ⟨je, hje⟩ : ∃ je, cfg.joint_names.at e = some je := by
    cases hje : cfg.joint_names.at e with
    | none => simp [extremityLoop, hb, he, hjb, hje] at h
    | some je => exact ⟨je, rfl⟩
  obtain ⟨vb, hvb⟩ : ∃ vb, vectorAt cfg.max_v jb = some vb := by
    cases hvb : vectorAt cfg.max_v jb with
    | none => simp [extremityLoop, hb, he, hjb, hje, hvb] at h
    | some vb => exact ⟨vb, rfl⟩
  obtain ⟨ve, hve⟩ : ∃ ve, vectorAt cfg.max_v je = some ve := by
    cases hve : vectorAt cfg.max_v je with
    | none => simp [extremityLoop, hb, he, hjb, hje, hvb, hve] at h
    | some ve => exact ⟨ve, rfl⟩
  refine ⟨b, e, jb, je, vb, ve, hb, he, hjb, hje, hvb, hve, ?_⟩
  simp only [extremityLoop, hb, he, hjb, hje, hvb, hve] at h
  exact h

theorem extremityLoop_max_v (cfg : Config) :
    ∀ (k i : Nat) (segs : StdMap jointPair) (maxv : List ℚ) (r : StdMap jointPair × List ℚ),
      extremityLoop cfg k i segs maxv = .returned r →
      r.2.length = maxv.length + k ∧ (∀ j, j < maxv.length → r.2[j]? = maxv[j]?) ∧
      ∀ j, j < k → ∃ b e jb je vb ve, cfg.extremity_base_names[i + j]? = some b ∧
        cfg.extremity_end_names[i + j]? = some e ∧
        cfg.joint_names.at b = some jb ∧ cfg.joint_names.at e = some je ∧
        vectorAt cfg.max_v jb = some vb ∧ vectorAt cfg.max_v je = some ve ∧
        r.2[maxv.length + j]? = some (max vb ve) := by
  intro k
  induction k with
  | zero =>
    intro i segs maxv r h
    simp only [extremityLoop, Outcome.returned.injEq] at h
    subst h
    exact ⟨rfl, fun _ _ => rfl, fun j hj => absurd hj (Nat.not_lt_zero j)⟩
  | succ k ih =>
    intro i segs maxv r h
    obtain ⟨b, e, jb, je, vb, ve, hb, he, hjb, hje, hvb, hve, hrec⟩ :=
      extremityLoop_succ_returned cfg k i segs maxv r h
    obtain ⟨h1, h2, h3⟩ := ih (i + 1) _ _ r hrec
    have hlen : (maxv ++ [max vb ve]).length = maxv.length + 1 := by simp
    refine ⟨by rw [h1, hlen]; omega, ?_, ?_⟩
    · intro j hj
      rw [h2 j (by rw [hlen]; omega), List.getElem?_append_left hj]
    · intro j hj
      cases j with
      | zero =>
        refine ⟨b, e, jb, je, vb, ve, hb, he, hjb, hje, hvb, hve, ?_⟩
        rw [Nat.add_zero, h2 maxv.length (by rw [hlen]; omega)]
        simp
      | succ j =>
        obtain ⟨b1, e1, jb1, je1, vb1, ve1, g1, g2, g3, g4, g5, g6, g7⟩ := h3 j (by omega)
        have hi : i + (j + 1) = i + 1 + j := by omega
        have hm : maxv.length + (j + 1) = (maxv ++ [max vb ve]).length + j := by
          rw [hlen]; omega
        rw [hi, hm]
        exact ⟨b1, e1, jb1, je1, vb1, ve1, g1, g2, g3, g4, g5, g6, g7⟩

theorem new_returned {P V A : Type} (lib : ReachLib P V A) (cfg : Config) (t0 : ℚ)
    (b0 nd : Bool) (s0 : HumanReach P V A) (h : HumanReach.new lib cfg t0 b0 nd = .returned s0) :
    ∃ segs maxv, extremityLoop cfg cfg.extremity_base_names.length 0 [] []
        = .returned (segs, maxv) ∧
      s0.human_p_ = lib.mkPos ⟨cfg.measurement_error_pos, cfg.measurement_error_vel, cfg.delay⟩
        segs cfg.extremity_thickness maxv cfg.extremity_length := by
  unfold HumanReach.new at h
  simp only at h
  split at h
  · next segs maxv hloop =>
    split at h
    · cases h
      exact ⟨segs, maxv, hloop, rfl⟩
    · cases h
  · cases h
  · cases h
  · cases h

theorem armConfig_constructed :
    HumanReach.new recordingLib (armConfig "a" "b" "b" "c") (-1) false false
      = .returned { plainObject recordingLib 3 with
          human_p_ := ([("a", (0, 1)), ("b", (1, 2))], [2, 3]) } := by
  simp [HumanReach.new, extremityLoop, armConfig, plainConfig, plainObject, StdMap.at,
    StdMap.assign, vectorAt, pushZeros, recordingLib]
  norm_num

/-! ### C15 -/

/-- C15: for every object the constructor builds, the speed list handed to the
position-limit model has one entry per extremity, and the entry of extremity
`i` is the larger of `max_v[index of its base joint]` and `max_v[index of its
end joint]`, both names being in `joint_names` and both indices valid in
`max_v`. -/
theorem C15_extremity_speed_is_larger_endpoint_limit {P V A : Type} (lib : ReachLib P V A)
    (cfg : Config) (t0 : ℚ) (b0 nd : Bool) (s0 : HumanReach P V A)
    (hnew : HumanReach.new lib cfg t0 b0 nd = .returned s0) :
    ∃ segs maxv,
      s0.human_p_ = lib.mkPos ⟨cfg.measurement_error_pos, cfg.measurement_error_vel, cfg.delay⟩
        segs cfg.extremity_thickness maxv cfg.extremity_length ∧
      maxv.length = cfg.extremity_base_names.length ∧
      ∀ i, i < cfg.extremity_base_names.length →
        ∃ b e jb je vb ve, cfg.extremity_base_names[i]? = some b ∧
          cfg.extremity_end_names[i]? = some e ∧
          cfg.joint_names.at b = some jb ∧ cfg.joint_names.at e = some je ∧
          vectorAt cfg.max_v jb = some vb ∧ vectorAt cfg.max_v je = some ve ∧
          maxv[i]? = some (max vb ve) := by
  obtain ⟨segs, maxv, hloop, hp⟩ := new_returned lib cfg t0 b0 nd s0 hnew
  obtain ⟨h1, -, h3⟩ := extremityLoop_max_v cfg _ _ _ _ _ hloop
  refine ⟨segs, maxv, hp, by simpa using h1, ?_⟩
  intro i hi
  simpa using h3 i hi

/-- Witness of C15: joints `a`, `b`, `c` with speed limits `1`, `2`, `3` and the
extremities `a → b` and `b → c`: the position-limit model is handed the speeds
`[2, 3]`. -/
theorem C15_extremity_speed_is_larger_endpoint_limit_witness :
    ∃ (segs : StdMap jointPair) (maxv : List ℚ),
      (segs, maxv) = (([("a", (0, 1)), ("b", (1, 2))], [2, 3]) : StdMap jointPair × List ℚ) ∧
      maxv.length = 2 ∧
      ∀ i, i < 2 →
        ∃ b e jb je vb ve, (armConfig "a" "b" "b" "c").extremity_base_names[i]? = some b ∧
          (armConfig "a" "b" "b" "c").extremity_end_names[i]? = some e ∧
          (armConfig "a" "b" "b" "c").joint_names.at b = some jb ∧
          (armConfig "a" "b" "b" "c").joint_names.at e = some je ∧
          vectorAt (armConfig "a" "b" "b" "c").max_v jb = some vb ∧
          vectorAt (armConfig "a" "b" "b" "c").max_v je = some ve ∧
          maxv[i]? = some (max vb ve) := by
  obtain ⟨segs, maxv, h1, h2, h3⟩ :=
    C15_extremity_speed_is_larger_endpoint_limit recordingLib (armConfig "a" "b" "b" "c")
      (-1) false false _ armConfig_constructed
  exact ⟨segs, maxv, h1.symm, h2, h3⟩

/-! ### C17 -/

theorem extremitySpeed_isSome (cfg : Config) (i : Nat)
    (h : (cfg.extremitySpeed i).isSome = true) :
    ∃ b e jb je vb ve, cfg.extremity_base_names[i]? = some b ∧
      cfg.extremity_end_names[i]? = some e ∧
      cfg.joint_names.at b = some jb ∧ cfg.joint_names.at e = some je ∧
      vectorAt cfg.max_v jb = some vb ∧ vectorAt cfg.max_v je = some ve := by
  obtain ⟨b, hb⟩ : ∃ b, cfg.extremity_base_names[i]? = some b := by
    cases hb : cfg.extremity_base_names[i]? with
    | none => simp [Config.extremitySpeed, Config.extremityPair, hb] at h
    | some b => exact ⟨b, rfl⟩
  obtain ⟨e, he⟩ : ∃ e, cfg.extremity_end_names[i]? = some e := by
    cases he : cfg.extremity_end_names[i]? with
    | none => simp [Config.extremitySpeed, Config.extremityPair, hb, he] at h
    | some e => exact ⟨e, rfl⟩
  obtain ⟨jb, hjb⟩ : ∃ jb, cfg.joint_names.at b = some jb := by
    cases hjb : cfg.joint_names.at b with
    | none => simp [Config.extremitySpeed, Config.extremityPair, hb, he, hjb] at h
    | some jb => exact ⟨jb, rfl⟩
  obtain ⟨je, hje⟩ : ∃ je, cfg.joint_names.at e = some je := by
    cases hje : cfg.joint_names.at e with
    | none => simp [Config.extremitySpeed, Config.extremityPair, hb, he, hjb, hje] at h
    | some je => exact ⟨je, rfl⟩
  obtain ⟨vb, hvb⟩ : ∃ vb, vectorAt cfg.max_v jb = some vb := by
    cases hvb : vectorAt cfg.max_v jb with
    | none => simp [Config.extremitySpeed, Config.extremityPair, hb, he, hjb, hje, hvb] at h
    | some vb => exact ⟨vb, rfl⟩
  obtain ⟨ve, hve⟩ : ∃ ve, vectorAt cfg.max_v je = some ve := by
    cases hve : vectorAt cfg.max_v je with
    | none =>
      simp [Config.extremitySpeed, Config.extremityPair, hb, he, hjb, hje, hvb, hve] at h
    | some ve => exact ⟨ve, rfl⟩
  exact ⟨b, e, jb, je, vb, ve, hb, he, hjb, hje, hvb, hve⟩

theorem extremityLoop_of_resolved (cfg : Config) :
    ∀ (k i : Nat) (segs : StdMap jointPair) (maxv : List ℚ),
      (∀ j, i ≤ j → j < i + k → (cfg.extremitySpeed j).isSome = true) →
      ∃ r, extremityLoop cfg k i segs maxv = .returned r := by
  intro k
  induction k with
  | zero =>
    intro i segs maxv _
    exact ⟨_, rfl⟩
  | succ k ih =>
    intro i segs maxv h
    obtain ⟨b, e, jb, je, vb, ve, hb, he, hjb, hje, hvb, hve⟩ :=
      extremitySpeed_isSome cfg i (h i (Nat.le_refl i) (by omega))
    obtain ⟨r, hr⟩ := ih (i + 1) (segs.assign b (jb, je)) (maxv ++ [max vb ve])
      (fun j h1 h2 => h j (by omega) (by omega))
    refine ⟨r, ?_⟩
    simp only [extremityLoop, hb, he, hjb, hje, hvb, hve]
    exact hr

theorem extremityLoop_segments (cfg : Config) (hnd : cfg.extremity_base_names.Nodup) :
    ∀ (k i : Nat) (segs : StdMap jointPair) (maxv : List ℚ) (r : StdMap jointPair × List ℚ),
      i + k = cfg.extremity_base_names.length → segs.length = i →
      (∀ name, segs.at name ≠ none →
        ∃ j, j < i ∧ cfg.extremity_base_names[j]? = some name) →
      (∀ j b, j < i → cfg.extremity_base_names[j]? = some b →
        segs.at b = cfg.extremityPair j) →
      extremityLoop cfg k i segs maxv = .returned r →
      r.1.length = cfg.extremity_base_names.length ∧
        ∀ j b, j < cfg.extremity_base_names.length → cfg.extremity_base_names[j]? = some b →
          r.1.at b = cfg.extremityPair j := by
  intro k
  induction k with
  | zero =>
    intro i segs maxv r hik hlen _ hat h
    simp only [extremityLoop, Outcome.returned.injEq] at h
    subst h
    refine ⟨?_, fun j b hj hb => hat j b (by omega) hb⟩
    show segs.length = cfg.extremity_base_names.length
    omega
  | succ k ih =>
    intro i segs maxv r hik hlen hkeys hat h
    obtain ⟨b, e, jb, je, vb, ve, hb, he, hjb, hje, hvb, hve, hrec⟩ :=
      extremityLoop_succ_returned cfg k i segs maxv r h
    have hdiff : ∀ j, j < i → cfg.extremity_base_names[j]? ≠ some b := by
      intro j hj hjb'
      have := (List.nodup_iff_getElem?_ne_getElem?.mp hnd) j i hj (by omega)
      rw [hjb', hb] at this
      exact this rfl
    have hnone : segs.at b = none := by
      by_contra hc
      obtain ⟨j, hj, hjb'⟩ := hkeys b hc
      exact hdiff j hj hjb'
    have hpair : cfg.extremityPair i = some (jb, je) := by
      simp [Config.extremityPair, hb, he, hjb, hje]
    refine ih (i + 1) (segs.assign b (jb, je)) (maxv ++ [max vb ve]) r (by omega)
      (by rw [StdMap.length_assign_of_at_none segs b (jb, je) hnone, hlen]) ?_ ?_ hrec
    · intro name hname
      by_cases hn : b = name
      · exact ⟨i, by omega, by rw [← hn]; exact hb⟩
      · rw [StdMap.at_assign_of_ne segs b name (jb, je) hn] at hname
        obtain ⟨j, hj, hjn⟩ := hkeys name hname
        exact ⟨j, by omega, hjn⟩
    · intro j b1 hj hb1
      by_cases hji : j = i
      · subst hji
        rw [hb] at hb1
        cases hb1
        rw [StdMap.at_assign_self, hpair]
      · have hlt : j < i := by omega
        have hne : b ≠ b1 := by
          intro hbb
          rw [← hbb] at hb1
          exact hdiff j hlt hb1
        rw [StdMap.at_assign_of_ne segs b b1 (jb, je) hne]
        exact hat j b1 hlt hb1

theorem new_of_loop_returned {P V A : Type} (lib : ReachLib P V A) (cfg : Config) (t0 : ℚ)
    (b0 nd : Bool) (r : StdMap jointPair × List ℚ)
    (hloop : extremityLoop cfg cfg.extremity_base_names.length 0 [] [] = .returned r)
    (hlen : cfg.extremity_base_names.length = cfg.extremity_end_names.length) :
    ∃ s0, HumanReach.new lib cfg t0 b0 nd = .returned s0 := by
  unfold HumanReach.new
  simp only [hloop]
  rw [if_pos (Or.inr hlen)]
  exact ⟨_, rfl⟩

/-- C17, as stated, fails: the segment map is keyed by the base name, so two
extremities with the same base name share one entry. With joints `a`, `b`, `c`
and the extremities `a → b` and `a → c` (equal lengths, all names known, all
indices valid) the position-limit model is handed a map with one entry, `a ↦
(0, 2)`, next to two speeds. -/
theorem C17_counterexample_repeated_base_name :
    (armConfig "a" "b" "a" "c").extremity_base_names.length
        = (armConfig "a" "b" "a" "c").extremity_end_names.length ∧
      (armConfig "a" "b" "a" "c").extremityPair 0 = some (0, 1) ∧
      HumanReach.new recordingLib (armConfig "a" "b" "a" "c") (-1) false false
        = .returned { plainObject recordingLib 3 with human_p_ := ([("a", (0, 2))], [2, 3]) } ∧
      ([("a", ((0 : ℤ), (2 : ℤ)))] : StdMap jointPair).length ≠ ([2, 3] : List ℚ).length := by
  refine ⟨rfl, ?_, ?_, by decide⟩
  · simp [Config.extremityPair, armConfig, plainConfig, StdMap.at]
  · simp [HumanReach.new, extremityLoop, armConfig, plainConfig, plainObject, StdMap.at,
      StdMap.assign, vectorAt, pushZeros, recordingLib]

/-- C17 (amended): for every configuration in which `extremity_base_names` and
`extremity_end_names` have equal length, the base names are pairwise distinct
and all names occur in `joint_names` with indices valid in `max_v`, the
constructor returns, the segment map and the speed list handed to the
position-limit model both have `extremity_base_names.size()` entries, and the
map's entry for the base name of extremity `i` is the joint pair (index of base
`i`, index of end `i`). -/
theorem C17_one_segment_per_extremity {P V A : Type} (lib : ReachLib P V A) (cfg : Config)
    (t0 : ℚ) (b0 nd : Bool)
    (hlen : cfg.extremity_base_names.length = cfg.extremity_end_names.length)
    (hnd : cfg.extremity_base_names.Nodup) (hres : cfg.Resolved) :
    ∃ s0 segs maxv, HumanReach.new lib cfg t0 b0 nd = .returned s0 ∧
      s0.human_p_ = lib.mkPos ⟨cfg.measurement_error_pos, cfg.measurement_error_vel, cfg.delay⟩
        segs cfg.extremity_thickness maxv cfg.extremity_length ∧
      segs.length = cfg.extremity_base_names.length ∧
      maxv.length = cfg.extremity_base_names.length ∧
      ∀ i, i < cfg.extremity_base_names.length →
        ∃ b e jb je, cfg.extremity_base_names[i]? = some b ∧
          cfg.extremity_end_names[i]? = some e ∧
          cfg.joint_names.at b = some jb ∧ cfg.joint_names.at e = some je ∧
          segs.at b = some (jb, je) := by
  obtain ⟨r, hloop⟩ := extremityLoop_of_resolved cfg cfg.extremity_base_names.length 0 [] []
    (fun j _ hj => hres j (by omega))
  obtain ⟨s0, hnew⟩ := new_of_loop_returned lib cfg t0 b0 nd r hloop hlen
  obtain ⟨segs, maxv, hloop', hp⟩ := new_returned lib cfg t0 b0 nd s0 hnew
  obtain ⟨hmax, -, -⟩ := extremityLoop_max_v cfg _ _ _ _ _ hloop'
  obtain ⟨hsl, hsat⟩ := extremityLoop_segments cfg hnd cfg.extremity_base_names.length 0 [] []
    _ (by omega) rfl (fun name hname => absurd rfl hname)
    (fun j b hj _ => absurd hj (Nat.not_lt_zero j)) hloop'
  refine ⟨s0, segs, maxv, hnew, hp, hsl, by simpa using hmax, ?_⟩
  intro i hi
  obtain ⟨b, e, jb, je, vb, ve, hb, he, hjb, hje, -, -⟩ := extremitySpeed_isSome cfg i (hres i hi)
  refine ⟨b, e, jb, je, hb, he, hjb, hje, ?_⟩
  rw [hsat i b hi hb]
  simp [Config.extremityPair, hb, he, hjb, hje]

/-- Witness of C17: joints `a`, `b`, `c` and the extremities `a → b` and `b →
c`: the position-limit model is handed the map `a ↦ (0, 1)`, `b ↦ (1, 2)` and
two speeds. -/
theorem C17_one_segment_per_extremity_witness :
    ∃ (segs : StdMap jointPair) (maxv : List ℚ),
      (segs, maxv) = (([("a", (0, 1)), ("b", (1, 2))], [2, 3]) : StdMap jointPair × List ℚ) ∧
      segs.length = 2 ∧ maxv.length = 2 ∧
      segs.at "a" = some (0, 1) ∧ segs.at "b" = some (1, 2) := by
  have hres : (armConfig "a" "b" "b" "c").Resolved := by
    intro i hi
    have h2 : i < 2 := hi
    interval_cases i <;>
      simp [Config.extremitySpeed, Config.extremityPair, armConfig, plainConfig, StdMap.at,
        vectorAt]
  obtain ⟨s0, segs, maxv, h1, h2, h3, h4, -⟩ :=
    C17_one_segment_per_extremity recordingLib (armConfig "a" "b" "b" "c") (-1) false false
      rfl (by simp [armConfig]) hres
  rw [armConfig_constructed] at h1
  cases h1
  have h5 : (segs, maxv)
      = (([("a", (0, 1)), ("b", (1, 2))], [2, 3]) : StdMap jointPair × List ℚ) := h2.symm
  cases h5
  exact ⟨_, _, rfl, h3, h4, by simp [StdMap.at], by simp [StdMap.at]⟩

end safety_shield
